import Mathlib

/-!
Shallow embedding of the EDL VFX change-sheet tool (streamlit_app.py) and
verification of its specified properties.

Modelling conventions:
* Python strings are modelled as `List Char` (alias `Str`).
* Python floats are modelled as exact rationals `ℚ`; the spec treats frame
  rates as unrounded real-valued scale factors, and all statuses below were
  cross-checked against IEEE double behaviour at the concrete inputs used.
* Python `round` is round-half-to-even (`pyRound`), `int()` applied to a
  float truncates toward zero (`pyInt`), `//` and `%` on integers are
  floor division and floor modulus (`Int.fdiv`, `Int.fmod`).
* Fallible operations return `Option`; Python `None` is `none`.
* Rational arithmetic is written with the kernel-computable wrappers
  `qAdd`, `qSub`, `qMul`, `qDiv`, `qNeg` (proved equal to the standard
  operations below), so that every definition evaluates on concrete input.
-/

def qAdd (a b : ℚ) : ℚ :=
  Rat.divInt (a.num * (b.den : ℤ) + b.num * (a.den : ℤ)) ((a.den : ℤ) * (b.den : ℤ))

def qSub (a b : ℚ) : ℚ :=
  Rat.divInt (a.num * (b.den : ℤ) - b.num * (a.den : ℤ)) ((a.den : ℤ) * (b.den : ℤ))

def qMul (a b : ℚ) : ℚ := Rat.divInt (a.num * b.num) ((a.den : ℤ) * (b.den : ℤ))

def qDiv (a b : ℚ) : ℚ := Rat.divInt (a.num * (b.den : ℤ)) ((a.den : ℤ) * b.num)

def qNeg (a : ℚ) : ℚ := Rat.divInt (-a.num) (a.den : ℤ)

def qHalf : ℚ := Rat.divInt 1 2

theorem den_cast_ne_zero (a : ℚ) : ((a.den : ℚ)) ≠ 0 := by
  exact_mod_cast a.den_nz

theorem qAdd_eq (a b : ℚ) : qAdd a b = a + b := by
  rw [qAdd, Rat.divInt_eq_div]
  conv_rhs => rw [← Rat.num_div_den a, ← Rat.num_div_den b]
  push_cast
  field_simp

theorem qSub_eq (a b : ℚ) : qSub a b = a - b := by
  rw [qSub, Rat.divInt_eq_div]
  conv_rhs => rw [← Rat.num_div_den a, ← Rat.num_div_den b]
  push_cast
  field_simp
  ring

theorem qMul_eq (a b : ℚ) : qMul a b = a * b := by
  rw [qMul, Rat.divInt_eq_div]
  conv_rhs => rw [← Rat.num_div_den a, ← Rat.num_div_den b]
  push_cast
  field_simp

theorem qNeg_eq (a : ℚ) : qNeg a = -a := by
  rw [qNeg, Rat.divInt_eq_div]
  conv_rhs => rw [← Rat.num_div_den a]
  push_cast
  field_simp

theorem qDiv_eq (a b : ℚ) : qDiv a b = a / b := by
  rcases eq_or_ne b 0 with rfl | hb
  · simp [qDiv, Rat.divInt_eq_div]
  · rw [qDiv, Rat.divInt_eq_div]
    conv_rhs => rw [← Rat.num_div_den a, ← Rat.num_div_den b]
    have hbn : ((b.num : ℚ)) ≠ 0 := by exact_mod_cast Rat.num_ne_zero.2 hb
    push_cast
    field_simp

theorem qHalf_eq : qHalf = 1 / 2 := by
  rw [qHalf, Rat.divInt_eq_div]
  norm_num

theorem ratFloor_eq (q : ℚ) : Rat.floor q = ⌊q⌋ := rfl

abbrev Str := List Char

/-- ASCII whitespace recognised by Python `str.strip` / `\s`. -/
def isPySpace (c : Char) : Bool :=
  c = ' ' || c = '\t' || c = '\n' || c = '\r' || c = '\x0b' || c = '\x0c'

def isDigitChar (c : Char) : Bool := '0' ≤ c && c ≤ '9'

/-- Numeric value of a decimal digit character. -/
def digitVal (c : Char) : ℕ := c.toNat - 48

/-- Decimal digit character for a value below ten. -/
def digitChar (d : ℕ) : Char :=
  match d with
  | 0 => '0' | 1 => '1' | 2 => '2' | 3 => '3' | 4 => '4'
  | 5 => '5' | 6 => '6' | 7 => '7' | 8 => '8' | 9 => '9'
  | _ => '?'

/-- Value of a list of decimal digit characters, most significant first. -/
def valDigits (l : Str) : ℕ := l.foldl (fun acc c => 10 * acc + digitVal c) 0

/-- Decimal rendering with explicit fuel (structural recursion, so that the
kernel can evaluate it). -/
def natDigitsAux : ℕ → ℕ → Str
  | 0, _ => []
  | fuel + 1, n =>
    if n < 10 then [digitChar n]
    else natDigitsAux fuel (n / 10) ++ [digitChar (n % 10)]

/-- Decimal rendering of a natural number (no sign, no padding). -/
def natDigits (n : ℕ) : Str := natDigitsAux (n + 1) n

/-- Python `str(n)` for an integer. -/
def intStr (n : ℤ) : Str :=
  if n < 0 then '-' :: natDigits n.natAbs else natDigits n.toNat

/-- Python format spec `{:02}`: zero-pad to width two. -/
def pyFormat02 (n : ℤ) : Str :=
  let s := intStr n
  if 2 ≤ s.length then s else '0' :: s

/-- Python banker's rounding (`round`) of a rational to an integer. -/
def pyRound (q : ℚ) : ℤ :=
  let fl := Rat.floor q
  let r := qSub q ((fl : ℤ) : ℚ)
  if r < qHalf then fl
  else if qHalf < r then fl + 1
  else if fl % 2 = 0 then fl else fl + 1

/-- Python `int()` applied to a real value: truncation toward zero. -/
def pyInt (q : ℚ) : ℤ := if q < 0 then -(Rat.floor (qNeg q)) else Rat.floor q

/-- Strip characters satisfying `p` from both ends (Python `str.strip`). -/
def stripBy (p : Char → Bool) (s : Str) : Str :=
  ((s.dropWhile p).reverse.dropWhile p).reverse

def strip (s : Str) : Str := stripBy isPySpace s

/-- Split a list on every occurrence of a separator character
(Python `str.split(sep)` semantics: n separators give n+1 parts). -/
def splitOnChar (sep : Char) : Str → List Str
  | [] => [[]]
  | c :: rest =>
    if c = sep then [] :: splitOnChar sep rest
    else
      match splitOnChar sep rest with
      | [] => [[c]]
      | p :: ps => (c :: p) :: ps

/-- Validity of the digit part of a Python integer literal after the first
digit: digits, with single underscores allowed only between digits. -/
def digitsTail : Str → Bool
  | [] => true
  | c :: rest =>
    if c = '_' then
      match rest with
      | [] => false
      | c2 :: _ => isDigitChar c2 && digitsTail rest
    else isDigitChar c && digitsTail rest

/-- Parse an unsigned run of digits (with Python underscore grouping). -/
def parseDigitsU (l : Str) : Option ℕ :=
  match l with
  | [] => none
  | c :: rest =>
    if isDigitChar c && digitsTail rest then
      some (valDigits ((c :: rest).filter (fun d => d ≠ '_')))
    else none

/-- Python `int(s)` on a string: optional surrounding whitespace, optional
sign, then a digit run. Returns `none` where Python raises `ValueError`. -/
def pyParseIntCore : Str → Option ℤ
  | [] => none
  | c :: rest =>
    if c = '-' then (parseDigitsU rest).map (fun v => -(v : ℤ))
    else if c = '+' then (parseDigitsU rest).map (fun v => (v : ℤ))
    else (parseDigitsU (c :: rest)).map (fun v => (v : ℤ))

def pyParseInt (s : Str) : Option ℤ := pyParseIntCore (strip s)

/-- `timecode_to_frames` from streamlit_app.py: converts an HH:MM:SS:FF
timecode string to an absolute 0-indexed frame count, `none` on failure.
The source computes `int(round(((h*3600 + m*60 + s) * framerate) + f))`
after `list(map(int, tc_str.split(":")))`, returning `None` when the split
does not give exactly four parts or any part fails `int()`; the leading
`not tc_str` guard rejects the empty string (the `isinstance` guard is a
type-level check with no counterpart here). -/
def t2fCore (framerate : ℚ) : List (Option ℤ) → Option ℤ
  | [some h, some m, some s, some f] =>
    some (pyRound (qAdd (qMul (((h * 3600 + m * 60 + s) : ℤ) : ℚ) framerate) ((f : ℤ) : ℚ)))
  | _ => none

def timecode_to_frames (tc_str : Str) (framerate : ℚ) : Option ℤ :=
  if tc_str = [] then none
  else t2fCore framerate ((splitOnChar ':' tc_str).map pyParseInt)

def defaultTC : Str := ('0' :: '0' :: ':' :: '0' :: '0' :: ':' :: '0' :: '0' :: ':' :: '0' :: '0' :: [])

/-- `frames_to_timecode` from streamlit_app.py: absolute frame count to
HH:MM:SS:FF. A `none` frame count or non-positive rate yields the default
"00:00:00:00" (the source's `isinstance` guards are type-level checks, and
`frames = int(round(frames))` is the identity on the integer frame counts
every caller passes). Seconds come from division by the raw rate, the frame
digit from rounding against the integer part, with rollover against the
rounded display rate. -/
def frames_to_timecode (frames : Option ℤ) (framerate : ℚ) : Str :=
  match frames with
  | none => defaultTC
  | some fr =>
    if framerate ≤ 0 then defaultTC
    else
      let total_seconds : ℚ := qDiv ((fr : ℤ) : ℚ) framerate
      let s_total_int : ℤ := pyInt total_seconds
      let frame_component : ℚ := qMul (qSub total_seconds ((s_total_int : ℤ) : ℚ)) framerate
      let f0 : ℤ := pyRound frame_component
      let tc_display_rate : ℤ := pyRound framerate
      let sf : ℤ × ℤ :=
        if 0 < tc_display_rate then
          if tc_display_rate ≤ f0 then
            (s_total_int + Int.fdiv f0 tc_display_rate, Int.fmod f0 tc_display_rate)
          else (s_total_int, f0)
        else (s_total_int, 0)
      let h := Int.fdiv sf.1 3600
      let remainder := Int.fmod sf.1 3600
      let m := Int.fdiv remainder 60
      let s := Int.fmod remainder 60
      pyFormat02 h ++ ':' :: (pyFormat02 m ++ ':' :: (pyFormat02 s ++ ':' :: pyFormat02 sf.2))

/-- Canonical zero-padded HH:MM:SS:FF string built from four field values,
using the same formatter as `frames_to_timecode`. -/
def mkTimecode (h m s f : ℕ) : Str :=
  pyFormat02 (h : ℤ) ++ ':' :: (pyFormat02 (m : ℤ) ++ ':' :: (pyFormat02 (s : ℤ) ++ ':' :: pyFormat02 (f : ℤ)))

/-- Tolerance (in frames) for grouping contiguous events into one shot. -/
def GROUPING_TOLERANCE_FRAMES : ℤ := 2

/-- One video-cut event extracted from an EDL line (the dict built in
phase 1 of `parse_edl`). `tc_out_frames` is exclusive. -/
structure CutEvent where
  eid : Str
  clip_name : Str
  source_tc_in : Str
  source_tc_out : Str
  tc_in : Str
  tc_out : Str
  tc_in_frames : ℤ
  tc_out_frames : ℤ
deriving DecidableEq, Inhabited, Repr

/-- One parsed VFX marker (the dict built in phase 2 of `parse_edl`). -/
structure Marker where
  vfx_code : Str
  marker_tc : Str
  marker_frames : ℤ
  description : Str
deriving DecidableEq, Inhabited, Repr

/-- One synthesized VFX shot row (the dict appended to combined_data in
phase 3 of `parse_edl`). -/
structure ShotRecord where
  vfx_code : Str
  episode : Str
  tc_in_out : Str
  source_tc_in : Str
  source_tc_out : Str
  duration_frames : ℤ
  description : Str
deriving DecidableEq, Inhabited, Repr

/-- The distance metric of the best-match scan: 0 when the marker frame is
inside the half-open event interval, otherwise the absolute distance to the
event's record-in frame. -/
def dist_to_marker (mf : ℤ) (e : CutEvent) : ℤ :=
  if e.tc_in_frames ≤ mf ∧ mf < e.tc_out_frames then 0 else |mf - e.tc_in_frames|

/-- The best-match loop of `parse_edl`. The state holds the current best
event with its index and the smallest distance seen so far; `none` is the
initial state (`best_match_event = None`, `smallest_diff = inf`, under which
the first comparison always updates). On a strictly smaller distance the
best is replaced; on an exact tie it is replaced only when the candidate
has a later record-in frame. -/
def best_match_aux (mf : ℤ) : List CutEvent → ℕ → Option ((CutEvent × ℕ) × ℤ) →
    Option ((CutEvent × ℕ) × ℤ)
  | [], _, st => st
  | e :: rest, i, st =>
    let d := dist_to_marker mf e
    let st2 :=
      match st with
      | none => some ((e, i), d)
      | some ((b, bi), sd) =>
        if d < sd then some ((e, i), d)
        else if d = sd ∧ b.tc_in_frames < e.tc_in_frames then some ((e, i), sd)
        else some ((b, bi), sd)
    best_match_aux mf rest (i + 1) st2

def best_match (mf : ℤ) (events : List CutEvent) : Option ((CutEvent × ℕ) × ℤ) :=
  best_match_aux mf events 0 none

/-- The grouping loop of `parse_edl`: absorb successive events while the
next event starts within tolerance of the current group end, extending the
end by max; stop at the first violation. -/
def group_out : List CutEvent → ℤ → ℤ
  | [], out => out
  | e :: rest, out =>
    if e.tc_in_frames ≤ out + GROUPING_TOLERANCE_FRAMES then
      group_out rest (max out e.tc_out_frames)
    else out

/-- Attempt to match the regex `_EP(\d+)_` at the head of the list,
returning the digit group. A match needs the literal `_EP`, a nonempty
digit run, then `_` (backtracking inside `\d+` cannot help since `_` is not
a digit). -/
def ep_search_at (l : Str) : Option Str :=
  match l with
  | '_' :: 'E' :: 'P' :: rest =>
    if rest.takeWhile isDigitChar = [] then none
    else
      match rest.drop (rest.takeWhile isDigitChar).length with
      | '_' :: _ => some (rest.takeWhile isDigitChar)
      | _ => none
  | _ => none

/-- `re.search(r"_EP(\d+)_", code)`: leftmost match. -/
def ep_search : Str → Option Str
  | [] => none
  | c :: rest =>
    match ep_search_at (c :: rest) with
    | some d => some d
    | none => ep_search rest

/-- Episode extraction from a VFX code (lines 247-248 of the source):
the `_EP(\d+)_` group when present, else the second underscore-delimited
segment, else the empty string. -/
def episode_of (code : Str) : Str :=
  match ep_search code with
  | some d => d
  | none =>
    if '_' ∈ code ∧ 1 < (splitOnChar '_' code).length then
      (splitOnChar '_' code).getD 1 []
    else []

/-- Phase 3 of `parse_edl` for one marker: find the best-matching event,
extend the group over subsequent events, then derive the shot row. Returns
`none` exactly when the best-match scan found nothing (empty event list). -/
def process_marker (events : List CutEvent) (framerate : ℚ) (mk : Marker) :
    Option ShotRecord :=
  match best_match mk.marker_frames events with
  | none => none
  | some ((e, i), _) =>
    let current_in : ℤ := e.tc_in_frames
    let current_out : ℤ := group_out (events.drop (i + 1)) e.tc_out_frames
    let final_record_tc_in := frames_to_timecode (some current_in) framerate
    let final_record_tc_out := frames_to_timecode (some current_out) framerate
    let duration_frames : ℤ :=
      if current_out - current_in < 0 then 0 else current_out - current_in
    let final_source_tc_in := e.source_tc_in
    let final_source_tc_out : Str :=
      match timecode_to_frames final_source_tc_in framerate with
      | some sif =>
        if 0 ≤ duration_frames then frames_to_timecode (some (sif + duration_frames)) framerate
        else defaultTC
      | none => defaultTC
    some {
      vfx_code := mk.vfx_code
      episode := episode_of mk.vfx_code
      tc_in_out := final_record_tc_in ++ ' ' :: '-' :: ' ' :: final_record_tc_out
      source_tc_in := final_source_tc_in
      source_tc_out := final_source_tc_out
      duration_frames := duration_frames
      description := mk.description }

/-- Phase 3 of `parse_edl` over all markers: one attempted row per marker,
in marker order (the `if best_match_event:` guard drops a marker only when
no event matched). -/
def correlate (events : List CutEvent) (framerate : ℚ) (markers : List Marker) :
    List ShotRecord :=
  markers.filterMap (process_marker events framerate)

/-- ASCII model of the regex word class `\w` (letters, digits, underscore). -/
def isWordChar (c : Char) : Bool := c.isAlpha || isDigitChar c || c = '_'

/-- The reel/clip-name character class `[\w\d\s./_-]`. -/
def reelChar (c : Char) : Bool :=
  isWordChar c || isDigitChar c || isPySpace c || c = '.' || c = '/' || c = '_' || c = '-'

def isTrackStart (c : Char) : Bool := c = 'A' || c = 'V' || c = 'U'

def isTrackChar (c : Char) : Bool := isTrackStart c || isDigitChar c

def isTransChar (c : Char) : Bool :=
  c = 'C' || c = 'K' || c = 'D' || c = 'W' || c = 'B' || c = 'P'

/-- `\s+`: require at least one whitespace character, consume the run. -/
def space1 (s : Str) : Option Str :=
  match s with
  | c :: rest => if isPySpace c then some (rest.dropWhile isPySpace) else none
  | [] => none

/-- `\d{2}:\d{2}:\d{2}:\d{2}`: match a timecode shape at the head,
returning the matched text and the remainder. -/
def tcPat (s : Str) : Option (Str × Str) :=
  match s with
  | a :: b :: ':' :: c :: d :: ':' :: e :: f :: ':' :: g :: h :: rest =>
    if isDigitChar a && isDigitChar b && isDigitChar c && isDigitChar d &&
       isDigitChar e && isDigitChar f && isDigitChar g && isDigitChar h then
      some ([a, b, ':', c, d, ':', e, f, ':', g, h], rest)
    else none
  | _ => none

/-- Groups 3-8 of the event regex. -/
structure TailGroups where
  track : Str
  trans : Str
  src_in : Str
  src_out : Str
  rec_in : Str
  rec_out : Str
deriving DecidableEq, Inhabited, Repr

/-- Match `\s+([AVU][AVU\d]*)\s*([CKDWBP])\s+tc\s+tc\s+tc\s+tc` at the head.
Every quantified class here is disjoint from its successor, so greedy
matching without backtracking is exact. -/
def matchTail (s : Str) : Option TailGroups := do
  let s1 ← space1 s
  match s1 with
  | c :: rest =>
    if isTrackStart c then
      let tchars := rest.takeWhile isTrackChar
      let s2 := (rest.drop tchars.length).dropWhile isPySpace
      match s2 with
      | t :: s3 =>
        if isTransChar t then do
          let s4 ← space1 s3
          let (tc1, s5) ← tcPat s4
          let s6 ← space1 s5
          let (tc2, s7) ← tcPat s6
          let s8 ← space1 s7
          let (tc3, s9) ← tcPat s8
          let s10 ← space1 s9
          let (tc4, _) ← tcPat s10
          pure ⟨c :: tchars, [t], tc1, tc2, tc3, tc4⟩
        else none
      | [] => none
    else none
  | [] => none

/-- The lazy reel group `([\w\d\s./_-]+?)`: try the shortest nonempty
prefix of reel-class characters whose continuation matches `matchTail`. -/
def reelScan (acc : Str) : Str → Option (Str × TailGroups)
  | [] => none
  | c :: rest =>
    if reelChar c then
      match matchTail rest with
      | some t => some (acc ++ [c], t)
      | none => reelScan (acc ++ [c]) rest
    else none

/-- Backtracking over the `\s+` separating the event number from the reel
group (the reel class itself contains whitespace): the regex engine tries
the longest whitespace run first, then gives characters back to the reel. -/
def tryReel (s : Str) : ℕ → Option (Str × TailGroups)
  | 0 => none
  | j + 1 =>
    match reelScan [] (s.drop (j + 1)) with
    | some r => some r
    | none => tryReel s j

/-- `re.match` of the CMX3600 event pattern
`^\s*(\d+)\s+([\w\d\s./_-]+?)\s+([AVU][AVU\d]*)\s*([CKDWBP])\s+tc\s+tc\s+tc\s+tc`
against a line, returning the event number, reel name and remaining groups. -/
def event_line_match (l : Str) : Option (Str × Str × TailGroups) :=
  let s0 := l.dropWhile isPySpace
  let num := s0.takeWhile isDigitChar
  if num = [] then none
  else
    let s1 := s0.drop num.length
    let k := (s1.takeWhile isPySpace).length
    match tryReel s1 k with
    | some (reel, t) => some (num, reel, t)
    | none => none

/-- State of the phase-1 line scan. -/
structure P1State where
  raw_events : List CutEvent
  marker_lines : List Str
  in_marker_block : Bool
deriving DecidableEq, Inhabited

def listContains (pat : Str) : Str → Bool
  | [] => pat.isPrefixOf []
  | c :: rest => pat.isPrefixOf (c :: rest) || listContains pat rest

/-- The event-collection part of one phase-1 iteration: append a cut event
when the CMX3600 pattern matches a video cut with convertible,
positive-duration record timecodes. -/
def phase1_event (framerate : ℚ) (st : P1State) (line_num : ℕ) (line : Str) : P1State :=
  match event_line_match line with
  | some (_num, reel, t) =>
    if (match t.track with | c :: _ => c = 'V' | [] => false) && t.trans = ['C'] then
      match timecode_to_frames t.rec_in framerate, timecode_to_frames t.rec_out framerate with
      | some ri, some ro =>
        if ri < ro then
          { st with raw_events := st.raw_events ++ [{
              eid := ('e' :: 'v' :: 'e' :: 'n' :: 't' :: '_' :: natDigits line_num)
              clip_name := strip reel
              source_tc_in := t.src_in
              source_tc_out := t.src_out
              tc_in := t.rec_in
              tc_out := t.rec_out
              tc_in_frames := ri
              tc_out_frames := ro }] }
        else st
      | _, _ => st
    else st
  | none => st

/-- The marker-block conditional chain of one phase-1 iteration. -/
def phase1_markers (st1 : P1State) (line : Str) : P1State :=
  if listContains (String.toList "* MARKER METADATA START") line ||
     (st1.marker_lines.isEmpty && listContains (String.toList "* Marker Metadata") line &&
      !st1.in_marker_block) then
    { st1 with in_marker_block := true }
  else if listContains (String.toList "* MARKER METADATA END") line && st1.in_marker_block then
    { st1 with in_marker_block := false }
  else if st1.in_marker_block && (match line with | '*' :: _ => true | _ => false) then
    { st1 with marker_lines := st1.marker_lines ++ [line] }
  else if !(match line with | '*' :: _ => true | _ => false) && st1.in_marker_block &&
          !st1.marker_lines.isEmpty then
    { st1 with in_marker_block := false }
  else st1

/-- Phase 1 of `parse_edl`, one line: strip it, skip blanks, collect the
event, then run the marker-block chain. -/
def phase1_line (framerate : ℚ) (st : P1State) (line_num : ℕ) (raw_line : Str) :
    P1State :=
  let line := strip raw_line
  if line = [] then st
  else phase1_markers (phase1_event framerate st line_num line) line

/-- Insert before the first element with a strictly greater key, i.e. after
every element with an equal or smaller key (preserving input order among
equal keys, as Python's stable `sorted` does). -/
def insertByKey {α : Type} (k : α → ℤ) (x : α) : List α → List α
  | [] => [x]
  | y :: ys => if k x < k y then x :: y :: ys else y :: insertByKey k x ys

/-- Stable ascending sort by an integer key (the model of Python
`sorted(raw_events, key=lambda e: e["TC IN frames"])`). -/
def sortByKey {α : Type} (k : α → ℤ) (l : List α) : List α :=
  l.foldl (fun acc x => insertByKey k x acc) []

/-- Phase 1 of `parse_edl` over the whole text: split into lines, scan, and
sort the collected events ascending by record-in frame. -/
def phase1_scan (text : Str) (framerate : ℚ) : P1State :=
  ((splitOnChar '\n' text).enum).foldl
    (fun st p => phase1_line framerate st p.1 p.2) ⟨[], [], false⟩

def extract_events_and_markers (text : Str) (framerate : ℚ) :
    List CutEvent × List Str :=
  (sortByKey (fun e => e.tc_in_frames) (phase1_scan text framerate).raw_events,
   (phase1_scan text framerate).marker_lines)

/-- `re.search(r"(\d{2}:\d{2}:\d{2}:\d{2})", line)`: leftmost timecode-shaped
substring. -/
def search_tc : Str → Option Str
  | [] => none
  | c :: rest =>
    match tcPat (c :: rest) with
    | some (tc, _) => some tc
    | none => search_tc rest

/-- Index of the first occurrence of `pat` (Python `str.find`). -/
def findSeqIdx (pat : Str) : Str → Option ℕ
  | [] => if pat.isPrefixOf [] then some 0 else none
  | c :: rest =>
    if pat.isPrefixOf (c :: rest) then some 0
    else (findSeqIdx pat rest).map (fun i => i + 1)

/-- Python `comment.split(" ", 1)`: break at the first literal space. -/
def splitFirstSpace : Str → Str × Option Str
  | [] => ([], none)
  | c :: rest =>
    if c = ' ' then ([], some rest)
    else
      let p := splitFirstSpace rest
      (c :: p.1, p.2)

/-- Branch `at\s+\d{2}:\d{2}:\d{2}:\d{2}\s*-\s*` of the description-cleanup
pattern. -/
def descPreAt (d : Str) : Option Str :=
  match d with
  | 'a' :: 't' :: rest => do
    let r1 ← space1 rest
    let (_tc, r2) ← tcPat r1
    match r2.dropWhile isPySpace with
    | '-' :: r3 => some (r3.dropWhile isPySpace)
    | _ => none
  | _ => none

/-- Branch `TC:\s*\d{2}:\d{2}:\d{2}:\d{2}\s*-\s*` of the description-cleanup
pattern. -/
def descPreTC (d : Str) : Option Str :=
  match d with
  | 'T' :: 'C' :: ':' :: rest => do
    let (_tc, r1) ← tcPat (rest.dropWhile isPySpace)
    match r1.dropWhile isPySpace with
    | '-' :: r2 => some (r2.dropWhile isPySpace)
    | _ => none
  | _ => none

/-- The anchored alternation of the description-cleanup `re.sub`, tried in
source order; returns the text after the removed prefix. -/
def desc_clean (d : Str) : Str :=
  match descPreAt d with
  | some r => r
  | none =>
    match d with
    | '-' :: r => r.dropWhile isPySpace
    | _ =>
      match descPreTC d with
      | some r => r
      | none => d

/-- Phase 2 of `parse_edl`, one marker line: keep only lines containing the
project key `HH_`; take the first timecode-shaped substring (defaulting to
00:00:00:00), dropping the line when that timecode fails conversion; the
VFX code is the first space-delimited token from the key onward and the
description is the cleaned remainder. -/
def parse_marker_line (framerate : ℚ) (line : Str) : Option Marker :=
  if listContains (String.toList "HH_") line then
    let marker_tc_str :=
      match search_tc line with
      | some tc => tc
      | none => defaultTC
    match timecode_to_frames marker_tc_str framerate with
    | none => none
    | some mf =>
      match findSeqIdx (String.toList "HH_") line with
      | none => none
      | some idx =>
        let comment_full := strip (line.drop idx)
        let p := splitFirstSpace comment_full
        let description :=
          match p.2 with
          | none => []
          | some rest => strip (desc_clean (strip rest))
        some ⟨p.1, marker_tc_str, mf, description⟩
  else none

/-- Phase 2 of `parse_edl` over all collected marker lines. -/
def parse_markers (marker_lines : List Str) (framerate : ℚ) : List Marker :=
  marker_lines.filterMap (parse_marker_line framerate)

/-- `parse_edl` from streamlit_app.py (the returned DataFrame rows). -/
def parse_edl (text : Str) (framerate : ℚ) : List ShotRecord :=
  let em := extract_events_and_markers text framerate
  correlate em.1 framerate (parse_markers em.2 framerate)

/-! ## Diff classifier (the comparison loop of the UI layer)

Rows are modelled as a join key plus a positional list of display-field
values; `none` models a pandas NaN / missing cell (e.g. an empty cell of
the previous CSV). Field index 0 is EPISODE, the column whose null-ness
the source uses to detect NEW/DELETED (`final_display_cols[1]`). -/

structure ShotRow where
  code : Str
  fields : List (Option Str)
deriving DecidableEq, Inhabited, Repr

structure DiffRow where
  code : Str
  status : Str
  out_fields : List Str
deriving DecidableEq, Inhabited, Repr

/-- `str(v) if pd.notna(v) else ""`. -/
def na_str (v : Option Str) : Str :=
  match v with
  | some s => s
  | none => []

/-- Field `j` of one side of a merged row: `none` when the whole side is
absent (all its columns are NaN after the outer merge) or the cell is NaN. -/
def getF (side : Option (List (Option Str))) (j : ℕ) : Option Str :=
  match side with
  | none => none
  | some l => l.getD j none

/-- The body of the comparison loop for one merged row over `n` display
fields (excluding the join key). -/
def diff_row (n : ℕ) (code : Str) (cf pf : Option (List (Option Str))) : DiffRow :=
  let is_new := (getF pf 0).isNone && (getF cf 0).isSome
  let is_deleted := (getF pf 0).isSome && (getF cf 0).isNone
  let outs := (List.range n).map (fun j =>
    let cs := na_str (getF cf j)
    let os := na_str (getF pf j)
    if is_new then cs
    else if is_deleted then String.toList "(DELETED - was: " ++ os ++ [')']
    else if cs ≠ os then cs ++ String.toList " (was: " ++ os ++ [')']
    else cs)
  let changed := (List.range n).any (fun j =>
    !is_new && !is_deleted && decide (na_str (getF cf j) ≠ na_str (getF pf j)))
  let status :=
    if is_new then String.toList "NEW"
    else if is_deleted then String.toList "DELETED"
    else if changed then String.toList "CHANGED"
    else String.toList "UNMODIFIED"
  ⟨code, status, outs⟩

/-- First row of a table carrying a given code (the pandas join lookup). -/
def find_row (rows : List ShotRow) (code : Str) : Option ShotRow :=
  rows.find? (fun r => decide (r.code = code))

/-- The comparison pass: an outer join of the two tables on the code column
(current rows in order, then previous-only rows) with the loop body applied
to each merged row. -/
def diff_shots (n : ℕ) (curr prev : List ShotRow) : List DiffRow :=
  curr.map (fun c => diff_row n c.code (some c.fields) ((find_row prev c.code).map ShotRow.fields))
  ++ (prev.filter (fun p => (find_row curr p.code).isNone)).map
      (fun p => diff_row n p.code none (some p.fields))

/-! ## Helper lemmas: digits, formatting, parsing -/

def DChars : Str := ['0', '1', '2', '3', '4', '5', '6', '7', '8', '9']

theorem DChars_facts : ∀ c ∈ DChars, isDigitChar c = true ∧ isPySpace c = false ∧
    c ≠ '_' ∧ c ≠ '-' ∧ c ≠ '+' ∧ c ≠ ':' := by decide

theorem digitChar_mem (d : ℕ) (h : d < 10) : digitChar d ∈ DChars := by
  interval_cases d <;> decide

theorem digitVal_digitChar (d : ℕ) (h : d < 10) : digitVal (digitChar d) = d := by
  interval_cases d <;> decide

theorem natDigitsAux_congr (n : ℕ) : ∀ f1 f2, n < f1 → n < f2 →
    natDigitsAux f1 n = natDigitsAux f2 n := by
  induction n using Nat.strong_induction_on with
  | _ n ih =>
    intro f1 f2 h1 h2
    match f1, f2 with
    | a + 1, b + 1 =>
      show natDigitsAux (a + 1) n = natDigitsAux (b + 1) n
      by_cases hn : n < 10
      · simp [natDigitsAux, hn]
      · have hlt : n / 10 < n := Nat.div_lt_self (by omega) (by omega)
        simp only [natDigitsAux, if_neg hn]
        rw [ih (n / 10) hlt a b (by omega) (by omega)]

theorem natDigits_unfold (n : ℕ) : natDigits n =
    if n < 10 then [digitChar n] else natDigits (n / 10) ++ [digitChar (n % 10)] := by
  by_cases hn : n < 10
  · simp [natDigits, natDigitsAux, hn]
  · have h1 : natDigits n = natDigitsAux n (n / 10) ++ [digitChar (n % 10)] := by
      show natDigitsAux (n + 1) n = _
      simp only [natDigitsAux, if_neg hn]
    rw [if_neg hn, h1]
    congr 1
    exact natDigitsAux_congr (n / 10) n (n / 10 + 1) (by omega) (by omega)

theorem natDigits_ne_nil (n : ℕ) : natDigits n ≠ [] := by
  rw [natDigits_unfold]
  by_cases hn : n < 10 <;> simp [hn]

theorem mem_natDigits (n : ℕ) : ∀ c ∈ natDigits n, c ∈ DChars := by
  induction n using Nat.strong_induction_on with
  | _ n ih =>
    intro c hc
    rw [natDigits_unfold] at hc
    by_cases hn : n < 10
    · rw [if_pos hn] at hc
      simp at hc
      exact hc ▸ digitChar_mem n hn
    · rw [if_neg hn] at hc
      rcases List.mem_append.1 hc with h | h
      · exact ih (n / 10) (Nat.div_lt_self (by omega) (by omega)) c h
      · simp at h
        exact h ▸ digitChar_mem (n % 10) (Nat.mod_lt n (by omega))

theorem valDigits_append_one (xs : Str) (c : Char) :
    valDigits (xs ++ [c]) = 10 * valDigits xs + digitVal c := by
  simp [valDigits, List.foldl_append]

theorem valDigits_natDigits (n : ℕ) : valDigits (natDigits n) = n := by
  induction n using Nat.strong_induction_on with
  | _ n ih =>
    rw [natDigits_unfold]
    by_cases hn : n < 10
    · simp [if_pos hn, valDigits, digitVal_digitChar n hn]
    · rw [if_neg hn, valDigits_append_one,
        ih (n / 10) (Nat.div_lt_self (by omega) (by omega)),
        digitVal_digitChar (n % 10) (Nat.mod_lt n (by omega))]
      omega

theorem intStr_nonneg (n : ℤ) (h : 0 ≤ n) : intStr n = natDigits n.toNat := by
  unfold intStr
  rw [if_neg (by omega : ¬ n < 0)]

theorem pyFormat02_eq (n : ℤ) : pyFormat02 n =
    if 2 ≤ (intStr n).length then intStr n else '0' :: intStr n := rfl

theorem mem_pyFormat02 (n : ℤ) (h : 0 ≤ n) : ∀ c ∈ pyFormat02 n, c ∈ DChars := by
  intro c hc
  rw [pyFormat02_eq, intStr_nonneg n h] at hc
  by_cases h2 : 2 ≤ (natDigits n.toNat).length
  · rw [if_pos h2] at hc
    exact mem_natDigits n.toNat c hc
  · rw [if_neg h2] at hc
    rcases List.mem_cons.1 hc with rfl | h3
    · decide
    · exact mem_natDigits n.toNat c h3

theorem intStr_ne_nil (n : ℤ) : intStr n ≠ [] := by
  unfold intStr
  by_cases hn : n < 0
  · simp [hn]
  · rw [if_neg hn]
    exact natDigits_ne_nil n.toNat

theorem pyFormat02_ne_nil (n : ℤ) : pyFormat02 n ≠ [] := by
  rw [pyFormat02_eq]
  by_cases h2 : 2 ≤ (intStr n).length
  · rw [if_pos h2]
    exact intStr_ne_nil n
  · rw [if_neg h2]
    simp

theorem dropWhile_eq_self_of_all {p : Char → Bool} {l : Str}
    (h : ∀ c ∈ l, p c = false) : l.dropWhile p = l := by
  cases l with
  | nil => rfl
  | cons c rest => simp [List.dropWhile_cons, h c (by simp)]

theorem stripBy_eq_self {p : Char → Bool} {l : Str}
    (h : ∀ c ∈ l, p c = false) : stripBy p l = l := by
  unfold stripBy
  rw [dropWhile_eq_self_of_all h, dropWhile_eq_self_of_all (by
    intro c hc
    exact h c (by simpa using hc)), List.reverse_reverse]

theorem digitsTail_of_all_digits {l : Str} (h : ∀ c ∈ l, c ∈ DChars) :
    digitsTail l = true := by
  induction l with
  | nil => rfl
  | cons c rest ih =>
    have hc := DChars_facts c (h c (by simp))
    unfold digitsTail
    rw [if_neg hc.2.2.1, hc.1, ih (fun x hx => h x (by simp [hx]))]
    rfl

theorem filter_no_underscore {l : Str} (h : ∀ c ∈ l, c ∈ DChars) :
    l.filter (fun d => d ≠ '_') = l := by
  apply List.filter_eq_self.2
  intro c hc
  simp only [decide_eq_true_eq]
  exact (DChars_facts c (h c hc)).2.2.1

theorem pyParseInt_pyFormat02 (k : ℤ) (h : 0 ≤ k) :
    pyParseInt (pyFormat02 k) = some k := by
  have hmem := mem_pyFormat02 k h
  have hnospace : ∀ c ∈ pyFormat02 k, isPySpace c = false := by
    intro c hc
    exact (DChars_facts c (hmem c hc)).2.1
  unfold pyParseInt
  rw [show strip (pyFormat02 k) = pyFormat02 k from stripBy_eq_self hnospace]
  obtain ⟨c, rest, hcr⟩ : ∃ c rest, pyFormat02 k = c :: rest := by
    cases hpf : pyFormat02 k with
    | nil => exact absurd hpf (pyFormat02_ne_nil k)
    | cons c rest => exact ⟨c, rest, rfl⟩
  rw [hcr]
  have hc := DChars_facts c (hmem c (by rw [hcr]; simp))
  simp only [pyParseIntCore]
  rw [if_neg hc.2.2.2.1, if_neg hc.2.2.2.2.1]
  have hall : ∀ x ∈ c :: rest, x ∈ DChars := by
    intro x hx
    exact hmem x (by rw [hcr]; exact hx)
  have hdt : digitsTail rest = true :=
    digitsTail_of_all_digits (fun x hx => hall x (by simp [hx]))
  simp only [parseDigitsU]
  rw [hc.1, hdt]
  simp only [Bool.and_self, if_pos]
  rw [filter_no_underscore hall, ← hcr]
  have hval : valDigits (pyFormat02 k) = k.toNat := by
    rw [pyFormat02_eq, intStr_nonneg k h]
    by_cases h2 : 2 ≤ (natDigits k.toNat).length
    · rw [if_pos h2, valDigits_natDigits]
    · rw [if_neg h2]
      show valDigits ('0' :: natDigits k.toNat) = k.toNat
      unfold valDigits
      rw [List.foldl_cons]
      show valDigits (natDigits k.toNat) = k.toNat
      exact valDigits_natDigits k.toNat
  rw [hval]
  simp [Int.toNat_of_nonneg h]

/-! ## Helper lemmas: splitting and the timecode converters -/

theorem splitOnChar_no_sep {sep : Char} {a : Str} (h : sep ∉ a) :
    splitOnChar sep a = [a] := by
  induction a with
  | nil => rfl
  | cons c rest ih =>
    have hc : ¬ c = sep := fun h2 => h (h2 ▸ List.mem_cons_self c rest)
    simp only [splitOnChar, if_neg hc, ih (fun h2 => h (List.mem_cons_of_mem c h2))]

theorem splitOnChar_append {sep : Char} {a : Str} (b : Str) (h : sep ∉ a) :
    splitOnChar sep (a ++ sep :: b) = a :: splitOnChar sep b := by
  induction a with
  | nil => simp [splitOnChar]
  | cons c rest ih =>
    have hc : ¬ c = sep := fun h2 => h (h2 ▸ List.mem_cons_self c rest)
    have ih2 := ih (fun h2 => h (List.mem_cons_of_mem c h2))
    simp only [List.cons_append, splitOnChar, if_neg hc, List.append_eq, ih2]

theorem colon_not_mem_pyFormat02 (n : ℤ) (h : 0 ≤ n) : ':' ∉ pyFormat02 n := by
  intro hmem
  exact (DChars_facts ':' (mem_pyFormat02 n h ':' hmem)).2.2.2.2.2 rfl

theorem splitOnChar_mkTimecode (h m s f : ℕ) :
    splitOnChar ':' (mkTimecode h m s f) =
      [pyFormat02 (h : ℤ), pyFormat02 (m : ℤ), pyFormat02 (s : ℤ), pyFormat02 (f : ℤ)] := by
  unfold mkTimecode
  rw [splitOnChar_append _ (colon_not_mem_pyFormat02 _ (by positivity)),
    splitOnChar_append _ (colon_not_mem_pyFormat02 _ (by positivity)),
    splitOnChar_append _ (colon_not_mem_pyFormat02 _ (by positivity)),
    splitOnChar_no_sep (colon_not_mem_pyFormat02 _ (by positivity))]

theorem mkTimecode_ne_nil (h m s f : ℕ) : mkTimecode h m s f ≠ [] := by
  unfold mkTimecode
  intro h2
  exact pyFormat02_ne_nil (h : ℤ) (List.append_eq_nil.1 h2).1

theorem timecode_to_frames_mkTimecode (hn mn sn fn : ℕ) (r : ℚ) :
    timecode_to_frames (mkTimecode hn mn sn fn) r =
      some (pyRound (qAdd (qMul ((((hn : ℤ) * 3600 + (mn : ℤ) * 60 + (sn : ℤ)) : ℤ) : ℚ) r)
        (((fn : ℤ) : ℚ)))) := by
  unfold timecode_to_frames
  rw [if_neg (mkTimecode_ne_nil hn mn sn fn), splitOnChar_mkTimecode]
  simp only [List.map_cons, List.map_nil,
    pyParseInt_pyFormat02 (hn : ℤ) (by positivity),
    pyParseInt_pyFormat02 (mn : ℤ) (by positivity),
    pyParseInt_pyFormat02 (sn : ℤ) (by positivity),
    pyParseInt_pyFormat02 (fn : ℤ) (by positivity)]
  rfl

/-- Banker's rounding agrees with the exact value on integers. -/
theorem pyRound_intCast (k : ℤ) : pyRound ((k : ℤ) : ℚ) = k := by
  simp only [pyRound, ratFloor_eq, Int.floor_intCast, qSub_eq, qHalf_eq, sub_self]
  norm_num

/-- Banker's rounding returns the unique integer strictly within a half. -/
theorem pyRound_near (q : ℚ) (k : ℤ) (h1 : (k : ℚ) - 1 / 2 < q) (h2 : q < (k : ℚ) + 1 / 2) :
    pyRound q = k := by
  simp only [pyRound, ratFloor_eq, qSub_eq, qHalf_eq]
  rcases le_or_lt (k : ℚ) q with hk | hk
  · have hfl : ⌊q⌋ = k := by
      rw [Int.floor_eq_iff]
      constructor
      · exact hk
      · linarith
    rw [hfl, if_pos (by linarith)]
  · have hfl : ⌊q⌋ = k - 1 := by
      rw [Int.floor_eq_iff]
      push_cast
      constructor <;> linarith
    rw [hfl]
    have hgt : 1 / 2 < q - ((k - 1 : ℤ) : ℚ) := by
      push_cast
      linarith
    rw [if_neg (by linarith), if_pos hgt]
    omega

theorem pyInt_nonneg (q : ℚ) (h : 0 ≤ q) : pyInt q = ⌊q⌋ := by
  unfold pyInt
  rw [if_neg (by linarith), ratFloor_eq]

/-- Core computation: converting the exact frame count of a well-formed
timecode back at an integer rate reproduces the four fields. -/
theorem frames_to_timecode_int_rate (n hN mN sN fN : ℕ) (hn : 0 < n) (hm : mN < 60)
    (hs : sN < 60) (hf : fN < n) :
    frames_to_timecode (some ((((hN * 3600 + mN * 60 + sN) * n + fN : ℕ) : ℤ))) ((n : ℚ)) =
      mkTimecode hN mN sN fN := by
  have hn' : (0 : ℚ) < (n : ℚ) := by exact_mod_cast hn
  have hfq : (0 : ℚ) ≤ (fN : ℚ) := by positivity
  have hfq2 : ((fN : ℚ)) < (n : ℚ) := by exact_mod_cast hf
  simp only [frames_to_timecode]
  rw [if_neg (by linarith : ¬ ((n : ℚ) ≤ 0)), qDiv_eq]
  have hfloor : pyInt (((((hN * 3600 + mN * 60 + sN) * n + fN : ℕ) : ℤ) : ℚ) / ((n : ℚ))) =
      ((hN * 3600 + mN * 60 + sN : ℕ) : ℤ) := by
    rw [pyInt_nonneg _ (by positivity), Int.floor_eq_iff]
    constructor
    · rw [le_div_iff₀ hn']
      push_cast
      nlinarith
    · rw [div_lt_iff₀ hn']
      push_cast
      nlinarith
  rw [hfloor]
  have hfc : qMul (qSub (((((hN * 3600 + mN * 60 + sN) * n + fN : ℕ) : ℤ) : ℚ) / ((n : ℚ)))
      ((((hN * 3600 + mN * 60 + sN : ℕ) : ℤ) : ℚ))) ((n : ℚ)) = (((fN : ℕ) : ℤ) : ℚ) := by
    rw [qMul_eq, qSub_eq]
    field_simp
    ring
  rw [hfc]
  have hr1 : pyRound ((((fN : ℕ) : ℤ) : ℚ)) = ((fN : ℕ) : ℤ) := pyRound_intCast _
  have hr2 : pyRound ((n : ℚ)) = ((n : ℕ) : ℤ) := by
    have : ((n : ℕ) : ℚ) = (((n : ℕ) : ℤ) : ℚ) := by push_cast; ring
    rw [this]
    exact pyRound_intCast _
  rw [hr1, hr2]
  rw [if_pos (by exact_mod_cast hn : (0 : ℤ) < ((n : ℕ) : ℤ))]
  rw [if_neg (by exact_mod_cast Nat.not_le.2 hf : ¬ (((n : ℕ) : ℤ) ≤ ((fN : ℕ) : ℤ)))]
  have hm' : ((mN : ℕ) : ℤ) < 60 := by exact_mod_cast hm
  have hs' : ((sN : ℕ) : ℤ) < 60 := by exact_mod_cast hs
  have hS : ((hN * 3600 + mN * 60 + sN : ℕ) : ℤ) =
      (hN : ℤ) * 3600 + (mN : ℤ) * 60 + (sN : ℤ) := by push_cast; ring
  have e1 : Int.fdiv ((hN * 3600 + mN * 60 + sN : ℕ) : ℤ) 3600 = (hN : ℤ) := by
    rw [Int.fdiv_eq_ediv _ (by norm_num), hS]
    omega
  have e2 : Int.fmod ((hN * 3600 + mN * 60 + sN : ℕ) : ℤ) 3600 = (mN : ℤ) * 60 + (sN : ℤ) := by
    rw [Int.fmod_eq_emod _ (by norm_num), hS]
    omega
  have e3 : Int.fdiv ((mN : ℤ) * 60 + (sN : ℤ)) 60 = (mN : ℤ) := by
    rw [Int.fdiv_eq_ediv _ (by norm_num)]
    omega
  have e4 : Int.fmod ((mN : ℤ) * 60 + (sN : ℤ)) 60 = (sN : ℤ) := by
    rw [Int.fmod_eq_emod _ (by norm_num)]
    omega
  simp only [e1, e2, e3, e4]
  rfl

/-- The fractional frame rate 23.976 (2997/125), in kernel-computable form. -/
def rate23976 : ℚ := Rat.divInt 2997 125

/-! ## Claim C1: round-trip of the Timecode Converter -/

/-- C1, counterexample: at the supported fractional rate 23.976 the
round-trip fails on the well-formed timecode 00:01:45:00 (FF = 0 is below
the display rate 24): it comes back as 00:01:44:23. -/
theorem C1_round_trip_counterexample :
    frames_to_timecode
        (timecode_to_frames (String.toList "00:01:45:00") rate23976) rate23976 =
      String.toList "00:01:44:23" ∧
    String.toList "00:01:44:23" ≠ String.toList "00:01:45:00" := by
  constructor
  · decide
  · decide

/-- C1, amended: the round-trip law does hold at every integer frame rate
(24, 25, 30, 48, 50, 60 among the supported set) for every canonical
timecode whose minutes and seconds fields are below 60 and whose frame
field is below the rate. -/
theorem C1_round_trip_integer_rate (n h m s f : ℕ) (hn : 0 < n) (hm : m < 60)
    (hs : s < 60) (hf : f < n) :
    frames_to_timecode (timecode_to_frames (mkTimecode h m s f) ((n : ℚ))) ((n : ℚ)) =
      mkTimecode h m s f := by
  rw [timecode_to_frames_mkTimecode]
  have harg : qAdd (qMul ((((h : ℤ) * 3600 + (m : ℤ) * 60 + (s : ℤ)) : ℤ) : ℚ) ((n : ℚ)))
      (((f : ℤ) : ℚ)) = ((((h * 3600 + m * 60 + s) * n + f : ℕ) : ℤ) : ℚ) := by
    rw [qAdd_eq, qMul_eq]
    push_cast
    ring
  rw [harg, pyRound_intCast]
  exact frames_to_timecode_int_rate n h m s f hn hm hs hf

/-- C1, witness for the amended theorem at rate 24 and 01:00:10:00. -/
theorem C1_round_trip_integer_rate_witness :
    frames_to_timecode (timecode_to_frames (mkTimecode 1 0 10 0) ((24 : ℕ) : ℚ)) ((24 : ℕ) : ℚ) =
      mkTimecode 1 0 10 0 :=
  C1_round_trip_integer_rate 24 1 0 10 0 (by decide) (by decide) (by decide) (by decide)

/-! ## Claim C4: strict monotonicity of timecode_to_frames -/

/-- C4, counterexample: at the supported rate 23.976 the conversion is not
strictly increasing in timecode order: 00:01:44:23 is strictly earlier than
00:01:45:00 (both well-formed, FF below the display rate 24), yet both map
to frame 2517. -/
theorem C4_monotone_counterexample :
    timecode_to_frames (String.toList "00:01:44:23") rate23976 = some 2517 ∧
    timecode_to_frames (String.toList "00:01:45:00") rate23976 = some 2517 := by
  constructor
  · decide
  · decide

/-- C4, amended: at every positive integer frame rate,
`timecode_to_frames` is strictly increasing in lexicographic field order on
canonical timecodes with minutes and seconds below 60 and frames below the
rate. -/
theorem C4_strict_mono_integer_rate (n h1 m1 s1 f1 h2 m2 s2 f2 : ℕ) (hn : 0 < n)
    (hm1 : m1 < 60) (hs1 : s1 < 60) (hf1 : f1 < n)
    (hm2 : m2 < 60) (hs2 : s2 < 60) (hf2 : f2 < n)
    (hlex : h1 < h2 ∨ (h1 = h2 ∧ (m1 < m2 ∨ (m1 = m2 ∧ (s1 < s2 ∨ (s1 = s2 ∧ f1 < f2)))))) :
    ∃ N1 N2 : ℤ,
      timecode_to_frames (mkTimecode h1 m1 s1 f1) ((n : ℚ)) = some N1 ∧
      timecode_to_frames (mkTimecode h2 m2 s2 f2) ((n : ℚ)) = some N2 ∧ N1 < N2 := by
  refine ⟨((h1 * 3600 + m1 * 60 + s1) * n + f1 : ℕ), ((h2 * 3600 + m2 * 60 + s2) * n + f2 : ℕ),
    ?_, ?_, ?_⟩
  · rw [timecode_to_frames_mkTimecode]
    have harg : qAdd (qMul ((((h1 : ℤ) * 3600 + (m1 : ℤ) * 60 + (s1 : ℤ)) : ℤ) : ℚ) ((n : ℚ)))
        (((f1 : ℤ) : ℚ)) = ((((h1 * 3600 + m1 * 60 + s1) * n + f1 : ℕ) : ℤ) : ℚ) := by
      rw [qAdd_eq, qMul_eq]
      push_cast
      ring
    rw [harg, pyRound_intCast]
  · rw [timecode_to_frames_mkTimecode]
    have harg : qAdd (qMul ((((h2 : ℤ) * 3600 + (m2 : ℤ) * 60 + (s2 : ℤ)) : ℤ) : ℚ) ((n : ℚ)))
        (((f2 : ℤ) : ℚ)) = ((((h2 * 3600 + m2 * 60 + s2) * n + f2 : ℕ) : ℤ) : ℚ) := by
      rw [qAdd_eq, qMul_eq]
      push_cast
      ring
    rw [harg, pyRound_intCast]
  · have hlt : (h1 * 3600 + m1 * 60 + s1) * n + f1 < (h2 * 3600 + m2 * 60 + s2) * n + f2 := by
      rcases hlex with h | ⟨rfl, h | ⟨rfl, h | ⟨rfl, h⟩⟩⟩ <;> nlinarith
    exact_mod_cast hlt

/-- C4, witness for the amended theorem: 00:00:00:01 comes strictly before
00:00:01:00 at rate 24. -/
theorem C4_strict_mono_integer_rate_witness :
    ∃ N1 N2 : ℤ,
      timecode_to_frames (mkTimecode 0 0 0 1) ((24 : ℕ) : ℚ) = some N1 ∧
      timecode_to_frames (mkTimecode 0 0 1 0) ((24 : ℕ) : ℚ) = some N2 ∧ N1 < N2 :=
  C4_strict_mono_integer_rate 24 0 0 0 1 0 0 1 0 (by decide) (by decide) (by decide)
    (by decide) (by decide) (by decide) (by decide) (by omega)

/-! ## Claim C9: timecode_to_frames error behaviour and formula -/

theorem t2fCore_of_length_ne (rate : ℚ) (l : List (Option ℤ)) (h : l.length ≠ 4) :
    t2fCore rate l = none := by
  unfold t2fCore
  split
  · rename_i h2 m2 s2 f2
    simp at h
  · rfl

theorem t2fCore_of_none_mem (rate : ℚ) (l : List (Option ℤ)) (h : none ∈ l) :
    t2fCore rate l = none := by
  unfold t2fCore
  split
  · rename_i h2 m2 s2 f2
    simp at h
  · rfl

/-- C9: an input that does not split into exactly four colon-separated
fields converts to the null sentinel, as does one with any non-numeric
field; a well-formed input yields exactly
`round((h*3600 + m*60 + s) * rate + f)`. The function is a total Lean
function, which is the model-level statement that it neither raises nor has
side effects. -/
theorem C9_timecode_to_frames_behavior (tc : Str) (rate : ℚ) :
    ((splitOnChar ':' tc).length ≠ 4 → timecode_to_frames tc rate = none) ∧
    (∀ p ∈ splitOnChar ':' tc, pyParseInt p = none → timecode_to_frames tc rate = none) ∧
    (∀ h m s f : ℤ,
      (splitOnChar ':' tc).map pyParseInt = [some h, some m, some s, some f] →
      timecode_to_frames tc rate =
        some (pyRound (qAdd (qMul (((h * 3600 + m * 60 + s) : ℤ) : ℚ) rate) ((f : ℤ) : ℚ)))) := by
  by_cases htc : tc = []
  · subst htc
    refine ⟨fun _ => rfl, fun p hp hn => rfl, fun h m s f hmap => ?_⟩
    simp [splitOnChar, pyParseInt, strip, stripBy, pyParseIntCore] at hmap
  · unfold timecode_to_frames
    rw [if_neg htc]
    refine ⟨fun hlen => t2fCore_of_length_ne rate _ (by rwa [List.length_map]),
      fun p hp hnone => t2fCore_of_none_mem rate _ (List.mem_map.2 ⟨p, hp, hnone⟩),
      fun h m s f hmap => by rw [hmap]; rfl⟩

/-- C9, witness: the three-field string 01:00:10 fails conversion. -/
theorem C9_timecode_to_frames_behavior_witness :
    timecode_to_frames (String.toList "01:00:10") (24 : ℚ) = none :=
  (C9_timecode_to_frames_behavior (String.toList "01:00:10") 24).1 (by decide)

/-! ## Claim C3: best-match selection -/

theorem best_match_aux_spec (mf : ℤ) :
    ∀ (l : List CutEvent) (i : ℕ) (b : CutEvent) (bi : ℕ),
    ∃ e j, best_match_aux mf l i (some ((b, bi), dist_to_marker mf b)) =
        some ((e, j), dist_to_marker mf e) ∧
      (e = b ∨ e ∈ l) ∧
      dist_to_marker mf e ≤ dist_to_marker mf b ∧
      (∀ x ∈ l, dist_to_marker mf e ≤ dist_to_marker mf x) ∧
      (dist_to_marker mf b = dist_to_marker mf e → b.tc_in_frames ≤ e.tc_in_frames) ∧
      (∀ x ∈ l, dist_to_marker mf x = dist_to_marker mf e → x.tc_in_frames ≤ e.tc_in_frames) := by
  intro l
  induction l with
  | nil =>
    intro i b bi
    exact ⟨b, bi, rfl, Or.inl rfl, le_refl _, by simp, fun _ => le_refl _, by simp⟩
  | cons e0 rest ih =>
    intro i b bi
    by_cases h1 : dist_to_marker mf e0 < dist_to_marker mf b
    · have hstep : best_match_aux mf (e0 :: rest) i (some ((b, bi), dist_to_marker mf b)) =
          best_match_aux mf rest (i + 1) (some ((e0, i), dist_to_marker mf e0)) := by
        simp only [best_match_aux, if_pos h1]
      obtain ⟨e, j, heq, hmem, hle, hall, htieb, htiel⟩ := ih (i + 1) e0 i
      refine ⟨e, j, by rw [hstep, heq], ?_, ?_, ?_, ?_, ?_⟩
      · rcases hmem with rfl | hm
        · exact Or.inr (List.mem_cons_self _ _)
        · exact Or.inr (List.mem_cons_of_mem _ hm)
      · linarith
      · intro x hx
        rcases List.mem_cons.1 hx with rfl | hm
        · exact hle
        · exact hall x hm
      · intro hbe
        linarith
      · intro x hx hxe
        rcases List.mem_cons.1 hx with rfl | hm
        · exact htieb hxe
        · exact htiel x hm hxe
    · by_cases h2 : dist_to_marker mf e0 = dist_to_marker mf b ∧
          b.tc_in_frames < e0.tc_in_frames
      · have hstep : best_match_aux mf (e0 :: rest) i (some ((b, bi), dist_to_marker mf b)) =
            best_match_aux mf rest (i + 1) (some ((e0, i), dist_to_marker mf e0)) := by
          simp only [best_match_aux, if_neg h1, if_pos h2]
          rw [h2.1]
        obtain ⟨e, j, heq, hmem, hle, hall, htieb, htiel⟩ := ih (i + 1) e0 i
        refine ⟨e, j, by rw [hstep, heq], ?_, ?_, ?_, ?_, ?_⟩
        · rcases hmem with rfl | hm
          · exact Or.inr (List.mem_cons_self _ _)
          · exact Or.inr (List.mem_cons_of_mem _ hm)
        · rw [← h2.1]
          exact hle
        · intro x hx
          rcases List.mem_cons.1 hx with rfl | hm
          · exact hle
          · exact hall x hm
        · intro hbe
          have he0 : dist_to_marker mf e0 = dist_to_marker mf e := by
            rw [h2.1, hbe]
          exact le_trans (le_of_lt h2.2) (htieb he0)
        · intro x hx hxe
          rcases List.mem_cons.1 hx with rfl | hm
          · exact htieb hxe
          · exact htiel x hm hxe
      · have hstep : best_match_aux mf (e0 :: rest) i (some ((b, bi), dist_to_marker mf b)) =
            best_match_aux mf rest (i + 1) (some ((b, bi), dist_to_marker mf b)) := by
          simp only [best_match_aux, if_neg h1, if_neg h2]
        obtain ⟨e, j, heq, hmem, hle, hall, htieb, htiel⟩ := ih (i + 1) b bi
        have hb0 : dist_to_marker mf b ≤ dist_to_marker mf e0 := le_of_not_lt h1
        refine ⟨e, j, by rw [hstep, heq], ?_, hle, ?_, htieb, ?_⟩
        · rcases hmem with rfl | hm
          · exact Or.inl rfl
          · exact Or.inr (List.mem_cons_of_mem _ hm)
        · intro x hx
          rcases List.mem_cons.1 hx with rfl | hm
          · linarith
          · exact hall x hm
        · intro x hx hxe
          rcases List.mem_cons.1 hx with rfl | hm
          · have hx0 : dist_to_marker mf x = dist_to_marker mf b := by linarith
            have hbe : dist_to_marker mf b = dist_to_marker mf e := by linarith
            have hxb : x.tc_in_frames ≤ b.tc_in_frames := by
              by_contra hcon
              exact h2 ⟨hx0, by omega⟩
            exact le_trans hxb (htieb hbe)
          · exact htiel x hm hxe

theorem best_match_spec (mf : ℤ) (events : List CutEvent) (hne : events ≠ []) :
    ∃ e j, best_match mf events = some ((e, j), dist_to_marker mf e) ∧ e ∈ events ∧
      (∀ x ∈ events, dist_to_marker mf e ≤ dist_to_marker mf x) ∧
      (∀ x ∈ events, dist_to_marker mf x = dist_to_marker mf e →
        x.tc_in_frames ≤ e.tc_in_frames) := by
  cases events with
  | nil => exact absurd rfl hne
  | cons b rest =>
    have hstep : best_match mf (b :: rest) =
        best_match_aux mf rest 1 (some ((b, 0), dist_to_marker mf b)) := by
      simp only [best_match, best_match_aux]
    obtain ⟨e, j, heq, hmem, hle, hall, htieb, htiel⟩ := best_match_aux_spec mf rest 1 b 0
    refine ⟨e, j, by rw [hstep, heq], ?_, ?_, ?_⟩
    · rcases hmem with rfl | hm
      · exact List.mem_cons_self _ _
      · exact List.mem_cons_of_mem _ hm
    · intro x hx
      rcases List.mem_cons.1 hx with rfl | hm
      · exact hle
      · exact hall x hm
    · intro x hx hxe
      rcases List.mem_cons.1 hx with rfl | hm
      · exact htieb hxe
      · exact htiel x hm hxe

/-- C3: for every marker frame and non-empty event list the scan returns an
event minimizing the distance metric (0 inside the half-open event
interval, absolute distance to record-in otherwise), and among the
minimizers the chosen event has the latest record-in frame. -/
theorem C3_best_match_selection (mf : ℤ) (events : List CutEvent) (hne : events ≠ []) :
    ∃ e i d, best_match mf events = some ((e, i), d) ∧ e ∈ events ∧
      d = dist_to_marker mf e ∧
      (∀ x ∈ events, dist_to_marker mf e ≤ dist_to_marker mf x) ∧
      (∀ x ∈ events, dist_to_marker mf x = dist_to_marker mf e →
        x.tc_in_frames ≤ e.tc_in_frames) := by
  obtain ⟨e, j, heq, hmem, hall, htie⟩ := best_match_spec mf events hne
  exact ⟨e, j, dist_to_marker mf e, heq, hmem, rfl, hall, htie⟩

/-- C3, witness: a marker equidistant from two events is matched to the
later one. -/
theorem C3_best_match_selection_witness :
    ∃ e i d,
      best_match 15
        [⟨[], [], [], [], [], [], 10, 12⟩, ⟨[], [], [], [], [], [], 20, 30⟩] =
          some ((e, i), d) ∧
      e ∈ [(⟨[], [], [], [], [], [], 10, 12⟩ : CutEvent), ⟨[], [], [], [], [], [], 20, 30⟩] ∧
      d = dist_to_marker 15 e ∧
      (∀ x ∈ [(⟨[], [], [], [], [], [], 10, 12⟩ : CutEvent), ⟨[], [], [], [], [], [], 20, 30⟩],
        dist_to_marker 15 e ≤ dist_to_marker 15 x) ∧
      (∀ x ∈ [(⟨[], [], [], [], [], [], 10, 12⟩ : CutEvent), ⟨[], [], [], [], [], [], 20, 30⟩],
        dist_to_marker 15 x = dist_to_marker 15 e → x.tc_in_frames ≤ e.tc_in_frames) :=
  C3_best_match_selection 15 _ (by decide)

/-! ## Claim C2: contiguous grouping -/

theorem dist_to_marker_inside (mf : ℤ) (e : CutEvent)
    (h1 : e.tc_in_frames ≤ mf) (h2 : mf < e.tc_out_frames) : dist_to_marker mf e = 0 := by
  simp [dist_to_marker, h1, h2]

theorem dist_to_marker_pos_of_before (mf : ℤ) (e : CutEvent)
    (h : mf < e.tc_in_frames) : 0 < dist_to_marker mf e := by
  rw [dist_to_marker, if_neg (by omega : ¬ (e.tc_in_frames ≤ mf ∧ mf < e.tc_out_frames))]
  rw [abs_sub_comm]
  rw [abs_of_pos (by omega : (0 : ℤ) < e.tc_in_frames - mf)]
  omega

/-- With the marker inside the first of two events and strictly before the
second, the scan picks the first event. -/
theorem best_match_two_first (mf : ℤ) (e1 e2 : CutEvent)
    (h1 : e1.tc_in_frames ≤ mf) (h2 : mf < e1.tc_out_frames) (h3 : mf < e2.tc_in_frames) :
    best_match mf [e1, e2] = some ((e1, 0), 0) := by
  have hd1 : dist_to_marker mf e1 = 0 := dist_to_marker_inside mf e1 h1 h2
  have hd2 : 0 < dist_to_marker mf e2 := dist_to_marker_pos_of_before mf e2 h3
  simp only [best_match, best_match_aux]
  rw [if_neg (by omega : ¬ dist_to_marker mf e2 < dist_to_marker mf e1),
    if_neg (by omega : ¬ (dist_to_marker mf e2 = dist_to_marker mf e1 ∧
      e1.tc_in_frames < e2.tc_in_frames)), hd1]

/-- C2: the grouping walk absorbs the next event exactly when its record-in
is within tolerance 2 of the current group end, extending the end to the
max of the two record-outs; the first violation stops the walk for good
(later events are never revisited). In particular, with a marker matched
inside the first of two events, a 1-frame gap between the events merges
them into one shot spanning both, while a 5-frame gap leaves only the first
event in the shot. -/
theorem C2_contiguous_grouping :
    (∀ (e : CutEvent) (rest : List CutEvent) (out : ℤ),
      e.tc_in_frames ≤ out + GROUPING_TOLERANCE_FRAMES →
      group_out (e :: rest) out = group_out rest (max out e.tc_out_frames)) ∧
    (∀ (e : CutEvent) (rest : List CutEvent) (out : ℤ),
      out + GROUPING_TOLERANCE_FRAMES < e.tc_in_frames →
      group_out (e :: rest) out = out) ∧
    (∀ (e1 e2 : CutEvent) (mk : Marker) (rate : ℚ),
      e1.tc_in_frames ≤ mk.marker_frames → mk.marker_frames < e1.tc_out_frames →
      e2.tc_in_frames = e1.tc_out_frames + 1 → e1.tc_out_frames ≤ e2.tc_out_frames →
      ∃ rec, process_marker [e1, e2] rate mk = some rec ∧
        rec.duration_frames = e2.tc_out_frames - e1.tc_in_frames ∧
        rec.tc_in_out = frames_to_timecode (some e1.tc_in_frames) rate ++
          ' ' :: '-' :: ' ' :: frames_to_timecode (some e2.tc_out_frames) rate) ∧
    (∀ (e1 e2 : CutEvent) (mk : Marker) (rate : ℚ),
      e1.tc_in_frames ≤ mk.marker_frames → mk.marker_frames < e1.tc_out_frames →
      e2.tc_in_frames = e1.tc_out_frames + 5 →
      ∃ rec, process_marker [e1, e2] rate mk = some rec ∧
        rec.duration_frames = e1.tc_out_frames - e1.tc_in_frames ∧
        rec.tc_in_out = frames_to_timecode (some e1.tc_in_frames) rate ++
          ' ' :: '-' :: ' ' :: frames_to_timecode (some e1.tc_out_frames) rate) := by
  refine ⟨?_, ?_, ?_, ?_⟩
  · intro e rest out h
    simp only [group_out, if_pos h]
  · intro e rest out h
    simp only [group_out, if_neg (by omega : ¬ e.tc_in_frames ≤ out + GROUPING_TOLERANCE_FRAMES)]
  · intro e1 e2 mk rate hin hout hgap hle
    have hbm : best_match mk.marker_frames [e1, e2] = some ((e1, 0), 0) :=
      best_match_two_first _ e1 e2 hin hout (by
        rw [hgap]
        omega)
    have hgo : group_out [e2] e1.tc_out_frames = e2.tc_out_frames := by
      have hcond : e2.tc_in_frames ≤ e1.tc_out_frames + GROUPING_TOLERANCE_FRAMES := by
        simp only [GROUPING_TOLERANCE_FRAMES]
        omega
      simp only [group_out, if_pos hcond]
      exact max_eq_right hle
    simp only [process_marker, hbm, List.drop_succ_cons, List.drop_zero, hgo]
    refine ⟨_, rfl, ?_, rfl⟩
    simp only [if_neg (by omega : ¬ e2.tc_out_frames - e1.tc_in_frames < 0)]
  · intro e1 e2 mk rate hin hout hgap
    have hbm : best_match mk.marker_frames [e1, e2] = some ((e1, 0), 0) :=
      best_match_two_first _ e1 e2 hin hout (by
        rw [hgap]
        omega)
    have hgo : group_out [e2] e1.tc_out_frames = e1.tc_out_frames := by
      have hcond : ¬ e2.tc_in_frames ≤ e1.tc_out_frames + GROUPING_TOLERANCE_FRAMES := by
        simp only [GROUPING_TOLERANCE_FRAMES]
        omega
      simp only [group_out, if_neg hcond]
    simp only [process_marker, hbm, List.drop_succ_cons, List.drop_zero, hgo]
    refine ⟨_, rfl, ?_, rfl⟩
    simp only [if_neg (by omega : ¬ e1.tc_out_frames - e1.tc_in_frames < 0)]

/-- C2, witness: concrete two-event lists with a 1-frame gap (merged, the
shot spans both events) discharging the scenario hypotheses. -/
theorem C2_contiguous_grouping_witness :
    ∃ rec, process_marker
        [⟨[], [], [], [], [], [], 100, 148⟩, ⟨[], [], [], [], [], [], 149, 196⟩] 24
        ⟨[], [], 120, []⟩ = some rec ∧
      rec.duration_frames = (196 : ℤ) - 100 ∧
      rec.tc_in_out = frames_to_timecode (some 100) 24 ++
        ' ' :: '-' :: ' ' :: frames_to_timecode (some 196) 24 :=
  C2_contiguous_grouping.2.2.1 ⟨[], [], [], [], [], [], 100, 148⟩
    ⟨[], [], [], [], [], [], 149, 196⟩ ⟨[], [], 120, []⟩ 24
    (by decide) (by decide) (by decide) (by decide)

/-! ## Claim C6: source timecode derivation -/

/-- C6: every produced ShotRecord copies Source TC IN verbatim from the
best-matched event, takes its duration as the merged group's exclusive-out
minus in (clamped at zero), and derives Source TC OUT as
`frames_to_timecode(timecode_to_frames(Source TC IN) + duration)` instead
of reading any absorbed event's source-out field. -/
theorem C6_source_derivation (events : List CutEvent) (rate : ℚ) (mk : Marker)
    (rec : ShotRecord) (hp : process_marker events rate mk = some rec) :
    ∃ e i d, best_match mk.marker_frames events = some ((e, i), d) ∧
      rec.source_tc_in = e.source_tc_in ∧
      rec.duration_frames =
        (if group_out (events.drop (i + 1)) e.tc_out_frames - e.tc_in_frames < 0 then 0
         else group_out (events.drop (i + 1)) e.tc_out_frames - e.tc_in_frames) ∧
      (∀ k : ℤ, timecode_to_frames rec.source_tc_in rate = some k →
        rec.source_tc_out = frames_to_timecode (some (k + rec.duration_frames)) rate) := by
  unfold process_marker at hp
  cases hbm : best_match mk.marker_frames events with
  | none =>
    rw [hbm] at hp
    exact absurd hp (by simp)
  | some x =>
    obtain ⟨⟨e, i⟩, d⟩ := x
    rw [hbm] at hp
    have hrec := Option.some.inj hp
    subst hrec
    refine ⟨e, i, d, rfl, rfl, rfl, ?_⟩
    intro k hk
    show (match timecode_to_frames e.source_tc_in rate with
      | some sif => if 0 ≤ (if group_out (events.drop (i + 1)) e.tc_out_frames -
            e.tc_in_frames < 0 then 0
          else group_out (events.drop (i + 1)) e.tc_out_frames - e.tc_in_frames) then
          frames_to_timecode (some (sif + (if group_out (events.drop (i + 1)) e.tc_out_frames -
              e.tc_in_frames < 0 then 0
            else group_out (events.drop (i + 1)) e.tc_out_frames - e.tc_in_frames))) rate
        else defaultTC
      | none => defaultTC) = _
    rw [hk]
    have hdur : (0 : ℤ) ≤ (if group_out (events.drop (i + 1)) e.tc_out_frames -
        e.tc_in_frames < 0 then 0
      else group_out (events.drop (i + 1)) e.tc_out_frames - e.tc_in_frames) := by
      by_cases hc : group_out (events.drop (i + 1)) e.tc_out_frames - e.tc_in_frames < 0
      · simp [hc]
      · simp [hc]
        omega
    simp only [if_pos hdur]

/-- C6, witness: one event, marker inside it; the source-out is derived
from source-in plus the duration. -/
theorem C6_source_derivation_witness :
    ∃ e i d,
      best_match (86640 : ℤ) [⟨[], [], String.toList "10:00:00:00", String.toList "10:00:02:01",
          [], [], 86640, 86688⟩] = some ((e, i), d) ∧
      (ShotRecord.mk (String.toList "HH_X") (String.toList "X") 
        (frames_to_timecode (some 86640) 24 ++ ' ' :: '-' :: ' ' ::
          frames_to_timecode (some 86688) 24)
        (String.toList "10:00:00:00") (frames_to_timecode (some 864048) 24) 48
        []).source_tc_in = e.source_tc_in ∧
      (ShotRecord.mk (String.toList "HH_X") (String.toList "X")
        (frames_to_timecode (some 86640) 24 ++ ' ' :: '-' :: ' ' ::
          frames_to_timecode (some 86688) 24)
        (String.toList "10:00:00:00") (frames_to_timecode (some 864048) 24) 48
        []).duration_frames =
        (if group_out (([⟨[], [], String.toList "10:00:00:00", String.toList "10:00:02:01",
            [], [], 86640, 86688⟩] : List CutEvent).drop (i + 1)) e.tc_out_frames -
              e.tc_in_frames < 0 then 0
         else group_out (([⟨[], [], String.toList "10:00:00:00", String.toList "10:00:02:01",
            [], [], 86640, 86688⟩] : List CutEvent).drop (i + 1)) e.tc_out_frames -
              e.tc_in_frames) ∧
      (∀ k : ℤ, timecode_to_frames (ShotRecord.mk (String.toList "HH_X") (String.toList "X")
          (frames_to_timecode (some 86640) 24 ++ ' ' :: '-' :: ' ' ::
            frames_to_timecode (some 86688) 24)
          (String.toList "10:00:00:00") (frames_to_timecode (some 864048) 24) 48
          []).source_tc_in 24 = some k →
        (ShotRecord.mk (String.toList "HH_X") (String.toList "X")
          (frames_to_timecode (some 86640) 24 ++ ' ' :: '-' :: ' ' ::
            frames_to_timecode (some 86688) 24)
          (String.toList "10:00:00:00") (frames_to_timecode (some 864048) 24) 48
          []).source_tc_out =
          frames_to_timecode (some (k + 48)) 24) := by
  have h := C6_source_derivation
    [⟨[], [], String.toList "10:00:00:00", String.toList "10:00:02:01", [], [], 86640, 86688⟩]
    24 ⟨String.toList "HH_X", [], 86640, []⟩
    (ShotRecord.mk (String.toList "HH_X") (String.toList "X")
      (frames_to_timecode (some 86640) 24 ++ ' ' :: '-' :: ' ' ::
        frames_to_timecode (some 86688) 24)
      (String.toList "10:00:00:00") (frames_to_timecode (some 864048) 24) 48 [])
    (by decide)
  exact h

/-! ## Claim C10: one ShotRecord per marker when events exist -/

theorem process_marker_isSome (events : List CutEvent) (rate : ℚ) (mk : Marker)
    (hne : events ≠ []) : ∃ rec, process_marker events rate mk = some rec ∧
      rec.vfx_code = mk.vfx_code := by
  obtain ⟨e, j, heq, -, -, -⟩ := best_match_spec mk.marker_frames events hne
  unfold process_marker
  rw [heq]
  exact ⟨_, rfl, rfl⟩

/-- C10: with a non-empty event list every marker yields exactly one record
(the scan always selects some event), records appear in marker input order,
and with an empty event list every marker is dropped. -/
theorem C10_one_record_per_marker :
    (∀ (events : List CutEvent) (rate : ℚ) (markers : List Marker), events ≠ [] →
      (correlate events rate markers).map ShotRecord.vfx_code =
        markers.map Marker.vfx_code) ∧
    (∀ (rate : ℚ) (markers : List Marker), correlate [] rate markers = []) := by
  constructor
  · intro events rate markers hne
    induction markers with
    | nil => rfl
    | cons mk rest ih =>
      obtain ⟨rec, hrec, hvfx⟩ := process_marker_isSome events rate mk hne
      simp only [correlate, List.filterMap_cons, hrec, List.map_cons]
      rw [hvfx]
      exact congrArg (List.cons mk.vfx_code) ih
  · intro rate markers
    have hall : ∀ mk ∈ markers, process_marker [] rate mk = none := fun mk _ => rfl
    simp only [correlate]
    exact List.filterMap_eq_nil_iff.2 hall

/-- C10, witness: a single event and a single marker produce exactly one
record carrying the marker's VFX code. -/
theorem C10_one_record_per_marker_witness :
    (correlate [⟨[], [], [], [], [], [], 0, 10⟩] 24
        [⟨String.toList "HH_A", [], 5, []⟩]).map ShotRecord.vfx_code =
      ([⟨String.toList "HH_A", [], 5, []⟩] : List Marker).map Marker.vfx_code :=
  C10_one_record_per_marker.1 [⟨[], [], [], [], [], [], 0, 10⟩] 24
    [⟨String.toList "HH_A", [], 5, []⟩] (by decide)

/-! ## Claim C8: Event Extractor output invariant -/

theorem phase1_markers_events (st1 : P1State) (line : Str) :
    (phase1_markers st1 line).raw_events = st1.raw_events := by
  unfold phase1_markers
  split_ifs <;> rfl

theorem phase1_event_events (framerate : ℚ) (st : P1State) (line_num : ℕ) (line : Str) :
    (phase1_event framerate st line_num line).raw_events = st.raw_events ∨
    ∃ e : CutEvent, e.tc_in_frames < e.tc_out_frames ∧
      (phase1_event framerate st line_num line).raw_events = st.raw_events ++ [e] := by
  unfold phase1_event
  split
  · rename_i num reel t
    split
    · split
      · rename_i ri ro
        split
        · rename_i hlt
          right
          exact ⟨_, hlt, rfl⟩
        · left; rfl
      · left; rfl
    · left; rfl
  · left; rfl

theorem phase1_line_invariant {P : CutEvent → Prop} (framerate : ℚ) (st : P1State)
    (line_num : ℕ) (raw_line : Str)
    (hP : ∀ e2 : CutEvent, e2.tc_in_frames < e2.tc_out_frames → P e2)
    (hst : ∀ e ∈ st.raw_events, P e) :
    ∀ e ∈ (phase1_line framerate st line_num raw_line).raw_events, P e := by
  intro e he
  unfold phase1_line at he
  by_cases hline : strip raw_line = []
  · rw [if_pos hline] at he
    exact hst e he
  · rw [if_neg hline, phase1_markers_events] at he
    rcases phase1_event_events framerate st line_num (strip raw_line) with heq | ⟨e2, hlt, heq⟩
    · rw [heq] at he
      exact hst e he
    · rw [heq] at he
      rcases List.mem_append.1 he with h | h
      · exact hst e h
      · simp at h
        exact h ▸ hP e2 hlt

theorem phase1_fold_invariant {P : CutEvent → Prop} (framerate : ℚ)
    (hP : ∀ e2 : CutEvent, e2.tc_in_frames < e2.tc_out_frames → P e2) :
    ∀ (ps : List (ℕ × Str)) (st : P1State), (∀ e ∈ st.raw_events, P e) →
    ∀ e ∈ (ps.foldl (fun st p => phase1_line framerate st p.1 p.2) st).raw_events, P e := by
  intro ps
  induction ps with
  | nil => intro st hst; exact hst
  | cons p rest ih =>
    intro st hst
    exact ih _ (phase1_line_invariant framerate st p.1 p.2 hP hst)

theorem mem_insertByKey {α : Type} (k : α → ℤ) (x z : α) (l : List α) :
    z ∈ insertByKey k x l ↔ z = x ∨ z ∈ l := by
  induction l with
  | nil => simp [insertByKey]
  | cons y ys ih =>
    unfold insertByKey
    split_ifs
    · simp
    · rw [List.mem_cons, ih, List.mem_cons]
      tauto

theorem mem_sortByKey_aux {α : Type} (k : α → ℤ) (z : α) :
    ∀ (l : List α) (acc : List α),
      z ∈ l.foldl (fun a x => insertByKey k x a) acc ↔ z ∈ acc ∨ z ∈ l := by
  intro l
  induction l with
  | nil => simp
  | cons y ys ih =>
    intro acc
    rw [List.foldl_cons, ih, mem_insertByKey, List.mem_cons]
    tauto

theorem mem_sortByKey {α : Type} (k : α → ℤ) (z : α) (l : List α) :
    z ∈ sortByKey k l ↔ z ∈ l := by
  unfold sortByKey
  rw [mem_sortByKey_aux]
  simp

theorem insertByKey_sorted {α : Type} (k : α → ℤ) (x : α) (l : List α)
    (h : List.Pairwise (fun a b => k a ≤ k b) l) :
    List.Pairwise (fun a b => k a ≤ k b) (insertByKey k x l) := by
  induction l with
  | nil => simp [insertByKey]
  | cons y ys ih =>
    unfold insertByKey
    split_ifs with hxy
    · refine List.Pairwise.cons ?_ h
      intro z hz
      rcases List.mem_cons.1 hz with rfl | hm
      · omega
      · have := (List.pairwise_cons.1 h).1 z hm
        omega
    · refine List.Pairwise.cons ?_ (ih (List.pairwise_cons.1 h).2)
      intro z hz
      rcases (mem_insertByKey k x z ys).1 hz with rfl | hm
      · omega
      · exact (List.pairwise_cons.1 h).1 z hm

theorem sortByKey_sorted_aux {α : Type} (k : α → ℤ) :
    ∀ (l acc : List α), List.Pairwise (fun a b => k a ≤ k b) acc →
      List.Pairwise (fun a b => k a ≤ k b) (l.foldl (fun a x => insertByKey k x a) acc) := by
  intro l
  induction l with
  | nil => intro acc h; exact h
  | cons y ys ih =>
    intro acc h
    exact ih _ (insertByKey_sorted k y acc h)

theorem sortByKey_sorted {α : Type} (k : α → ℤ) (l : List α) :
    List.Pairwise (fun a b => k a ≤ k b) (sortByKey k l) :=
  sortByKey_sorted_aux k l [] (by simp)

/-- C8: every event in the extractor's output has a strictly positive
duration (exclusive record-out after record-in), and the output list is
sorted ascending by record-in frame. -/
theorem C8_extractor_invariant (text : Str) (rate : ℚ) :
    (∀ e ∈ (extract_events_and_markers text rate).1,
      e.tc_in_frames < e.tc_out_frames) ∧
    List.Pairwise (fun a b : CutEvent => a.tc_in_frames ≤ b.tc_in_frames)
      (extract_events_and_markers text rate).1 := by
  constructor
  · intro e he
    have he2 : e ∈ (phase1_scan text rate).raw_events :=
      (mem_sortByKey (fun e : CutEvent => e.tc_in_frames) e
        (phase1_scan text rate).raw_events).1 he
    exact phase1_fold_invariant rate (fun e2 h => h) _ _ (by simp) e he2
  · exact sortByKey_sorted _ _

/-- C8, witness: the scenario EDL's single event has positive duration. -/
def edl_scenario1 : Str := String.toList
  "001  AX  V  C  10:00:00:00 10:00:02:01 01:00:10:00 01:00:12:00\n* Marker Metadata\n* LOC: 01:00:10:00 YELLOW  HH_103_039_020 - Remove shadow"

theorem C8_extractor_invariant_witness :
    ((extract_events_and_markers edl_scenario1 24).1.getD 0 default).tc_in_frames <
      ((extract_events_and_markers edl_scenario1 24).1.getD 0 default).tc_out_frames :=
  (C8_extractor_invariant edl_scenario1 24).1 _ (by decide)

/-! ## Claim C5: episode extraction -/

theorem takeWhile_all_append {p : Char → Bool} (a : Str) (b : Char) (t : Str)
    (ha : ∀ c ∈ a, p c = true) (hb : p b = false) :
    (a ++ b :: t).takeWhile p = a := by
  induction a with
  | nil => simp [List.takeWhile_cons, hb]
  | cons c cs ih =>
    rw [List.cons_append, List.takeWhile_cons, ha c (by simp)]
    rw [ih (fun x hx => ha x (by simp [hx]))]
    simp

theorem dropWhile_eq_drop_takeWhile {p : Char → Bool} (l : Str) :
    l.dropWhile p = l.drop (l.takeWhile p).length := by
  induction l with
  | nil => rfl
  | cons c rest ih =>
    by_cases hc : p c
    · simp [List.dropWhile_cons, List.takeWhile_cons, hc, ih]
    · simp [List.dropWhile_cons, List.takeWhile_cons, hc]

theorem ep_search_at_sound (l : Str) (d : Str) (h : ep_search_at l = some d) :
    ∃ suf, l = '_' :: 'E' :: 'P' :: (d ++ '_' :: suf) ∧ d ≠ [] ∧
      ∀ c ∈ d, isDigitChar c = true := by
  unfold ep_search_at at h
  split at h
  · rename_i rest
    split at h
    · exact absurd h (by simp)
    · rename_i hne
      split at h
      · rename_i tail heq2
        have hd : d = rest.takeWhile isDigitChar := (Option.some.inj h).symm
        subst hd
        refine ⟨tail, ?_, hne, fun c hc => List.mem_takeWhile_imp hc⟩
        have hsplit : rest.takeWhile isDigitChar ++ rest.drop (rest.takeWhile isDigitChar).length
            = rest := by
          rw [← dropWhile_eq_drop_takeWhile]
          exact List.takeWhile_append_dropWhile isDigitChar rest
        rw [heq2] at hsplit
        rw [hsplit]
      · exact absurd h (by simp)
  · exact absurd h (by simp)

theorem ep_search_sound (code : Str) (d : Str) (h : ep_search code = some d) :
    ∃ pre suf, code = pre ++ '_' :: 'E' :: 'P' :: (d ++ '_' :: suf) ∧ d ≠ [] ∧
      ∀ c ∈ d, isDigitChar c = true := by
  induction code with
  | nil => exact absurd h (by simp [ep_search])
  | cons c rest ih =>
    unfold ep_search at h
    split at h
    · rename_i d2 hat
      have hd : d2 = d := Option.some.inj h
      subst hd
      obtain ⟨suf, heq, hne, hdig⟩ := ep_search_at_sound _ _ hat
      exact ⟨[], suf, heq, hne, hdig⟩
    · obtain ⟨pre, suf, heq, hne, hdig⟩ := ih h
      exact ⟨c :: pre, suf, by rw [List.cons_append, heq], hne, hdig⟩

theorem ep_search_at_complete (d suf : Str) (hd : d ≠ [])
    (hdig : ∀ c ∈ d, isDigitChar c = true) :
    ep_search_at ('_' :: 'E' :: 'P' :: (d ++ '_' :: suf)) = some d := by
  have htw : (d ++ '_' :: suf).takeWhile isDigitChar = d :=
    takeWhile_all_append d '_' suf hdig (by decide)
  show (if (d ++ '_' :: suf).takeWhile isDigitChar = [] then none
    else
      match (d ++ '_' :: suf).drop ((d ++ '_' :: suf).takeWhile isDigitChar).length with
      | '_' :: _ => some ((d ++ '_' :: suf).takeWhile isDigitChar)
      | _ => none) = some d
  rw [htw, if_neg hd, List.drop_left]
  rfl

theorem ep_search_complete (pre d suf : Str) (hd : d ≠ [])
    (hdig : ∀ c ∈ d, isDigitChar c = true) :
    ∃ d2, ep_search (pre ++ '_' :: 'E' :: 'P' :: (d ++ '_' :: suf)) = some d2 := by
  induction pre with
  | nil =>
    refine ⟨d, ?_⟩
    show ep_search ('_' :: 'E' :: 'P' :: (d ++ '_' :: suf)) = some d
    unfold ep_search
    rw [ep_search_at_complete d suf hd hdig]
  | cons c pre2 ih =>
    obtain ⟨d2, h2⟩ := ih
    rw [List.cons_append]
    unfold ep_search
    cases hat : ep_search_at (c :: (pre2 ++ '_' :: 'E' :: 'P' :: (d ++ '_' :: suf))) with
    | some d3 => exact ⟨d3, rfl⟩
    | none => exact ⟨d2, h2⟩

theorem splitOnChar_length_pos (sep : Char) (l : Str) : 0 < (splitOnChar sep l).length := by
  induction l with
  | nil => simp [splitOnChar]
  | cons c rest ih =>
    unfold splitOnChar
    split_ifs
    · simp
    · split
      · simp
      · simp

theorem splitOnChar_length_of_mem (sep : Char) (l : Str) (h : sep ∈ l) :
    1 < (splitOnChar sep l).length := by
  induction l with
  | nil => simp at h
  | cons c rest ih =>
    unfold splitOnChar
    by_cases hc : c = sep
    · rw [if_pos hc]
      have := splitOnChar_length_pos sep rest
      simp
      omega
    · rw [if_neg hc]
      have hm : sep ∈ rest := by
        rcases List.mem_cons.1 h with h2 | h2
        · exact absurd h2.symm hc
        · exact h2
      have hlen := ih hm
      split
      · rename_i heq
        rw [heq] at hlen
        simp at hlen
      · rename_i p ps heq
        rw [heq] at hlen
        simp at hlen
        simp
        omega

/-- C5: the episode comes from a structural `_EP<digits>_` match inside the
VFX code when one exists, otherwise from the second underscore-delimited
segment, otherwise it is empty; and on the Scenario-1 EDL, whose marker is
`HH_103_039_020 - Remove shadow`, the produced record's EPISODE is `103`
(the second underscore-delimited segment), not `039`. -/
theorem C5_episode_extraction :
    (∀ (code pre d suf : Str), code = pre ++ '_' :: 'E' :: 'P' :: (d ++ '_' :: suf) →
      d ≠ [] → (∀ c ∈ d, isDigitChar c = true) →
      ∃ d2 pre2 suf2, ep_search code = some d2 ∧ episode_of code = d2 ∧
        code = pre2 ++ '_' :: 'E' :: 'P' :: (d2 ++ '_' :: suf2) ∧ d2 ≠ [] ∧
        ∀ c ∈ d2, isDigitChar c = true) ∧
    (∀ code : Str,
      (¬ ∃ pre d suf : Str, code = pre ++ '_' :: 'E' :: 'P' :: (d ++ '_' :: suf) ∧
        d ≠ [] ∧ ∀ c ∈ d, isDigitChar c = true) →
      ('_' ∈ code → episode_of code = (splitOnChar '_' code).getD 1 []) ∧
      ('_' ∉ code → episode_of code = [])) ∧
    (parse_edl edl_scenario1 24).map ShotRecord.episode = [String.toList "103"] := by
  refine ⟨?_, ?_, by decide⟩
  · intro code pre d suf heq hd hdig
    subst heq
    obtain ⟨d2, h2⟩ := ep_search_complete pre d suf hd hdig
    obtain ⟨pre2, suf2, heq2, hne2, hdig2⟩ := ep_search_sound _ _ h2
    refine ⟨d2, pre2, suf2, h2, ?_, heq2, hne2, hdig2⟩
    unfold episode_of
    rw [h2]
  · intro code hno
    have hnone : ep_search code = none := by
      cases hep : ep_search code with
      | none => rfl
      | some d =>
        obtain ⟨pre, suf, heq, hne, hdig⟩ := ep_search_sound _ _ hep
        exact absurd ⟨pre, d, suf, heq, hne, hdig⟩ hno
    constructor
    · intro hmem
      unfold episode_of
      rw [hnone]
      rw [if_pos ⟨hmem, splitOnChar_length_of_mem '_' code hmem⟩]
    · intro hmem
      unfold episode_of
      rw [hnone]
      rw [if_neg (by
        intro hcon
        exact hmem hcon.1)]

/-- C5, witness: a code with an embedded `_EP12_` token uses the structural
match. -/
theorem C5_episode_extraction_witness :
    ∃ d2 pre2 suf2, ep_search (String.toList "X_EP12_Y") = some d2 ∧
      episode_of (String.toList "X_EP12_Y") = d2 ∧
      String.toList "X_EP12_Y" = pre2 ++ '_' :: 'E' :: 'P' :: (d2 ++ '_' :: suf2) ∧
      d2 ≠ [] ∧ ∀ c ∈ d2, isDigitChar c = true :=
  C5_episode_extraction.1 (String.toList "X_EP12_Y") (String.toList "X")
    (String.toList "12") (String.toList "Y") (by decide) (by decide) (by decide)

/-- C5, counterexample (to the claimed EPISODE value 039): the Scenario-1
EDL yields EPISODE 103. -/
theorem C5_episode_extraction_counterexample :
    (parse_edl edl_scenario1 24).map ShotRecord.episode = [String.toList "103"] ∧
    String.toList "103" ≠ String.toList "039" := by
  constructor
  · decide
  · decide

/-! ## Claim C7: diff classification -/

theorem find_row_eq_some (t : List ShotRow) (r : ShotRow) (hr : r ∈ t)
    (hn : (t.map ShotRow.code).Nodup) : find_row t r.code = some r := by
  induction t with
  | nil => simp at hr
  | cons x xs ih =>
    rcases List.mem_cons.1 hr with rfl | hm
    · simp [find_row, List.find?_cons]
    · have hx : ¬ x.code = r.code := by
        intro heq
        have : r.code ∈ xs.map ShotRow.code := List.mem_map_of_mem _ hm
        rw [← heq] at this
        exact (List.nodup_cons.1 hn).1 this
      have hrec := ih hm (List.nodup_cons.1 hn).2
      have hdec : (decide (x.code = r.code)) = false := by simpa using hx
      simp only [find_row] at hrec ⊢
      rw [List.find?_cons, hdec]
      exact hrec

theorem find_row_eq_none (t : List ShotRow) (code : Str)
    (h : ∀ p ∈ t, p.code ≠ code) : find_row t code = none := by
  apply List.find?_eq_none.2
  intro x hx
  simpa using h x hx

theorem getD_map_range (f : ℕ → Str) (n j : ℕ) (h : j < n) :
    ((List.range n).map f).getD j [] = f j := by
  rw [List.getD_eq_getElem _ _ (by simpa using h)]
  simp

theorem diff_row_status_new (n : ℕ) (code : Str) (cf : List (Option Str))
    (hc : (cf.getD 0 none).isSome) :
    (diff_row n code (some cf) none).status = String.toList "NEW" := by
  obtain ⟨cv, hcv⟩ := Option.isSome_iff_exists.1 hc
  unfold diff_row
  simp only [getF, hcv, Option.isNone_none, Option.isSome_some, Bool.and_self,
    Bool.true_and, if_true]

theorem diff_row_status_deleted (n : ℕ) (code : Str) (pf : List (Option Str))
    (hp : (pf.getD 0 none).isSome) :
    (diff_row n code none (some pf)).status = String.toList "DELETED" := by
  obtain ⟨pv, hpv⟩ := Option.isSome_iff_exists.1 hp
  unfold diff_row
  simp only [getF, hpv, Option.isNone_none, Option.isNone_some, Option.isSome_some,
    Option.isSome_none, Bool.and_self, Bool.true_and, Bool.and_false, Bool.false_and,
    Bool.and_true]
  rw [if_neg (by simp), if_pos (by simp)]

theorem diff_row_status_both (n : ℕ) (code : Str) (cf pf : List (Option Str))
    (hc : (cf.getD 0 none).isSome) (hp : (pf.getD 0 none).isSome) :
    (diff_row n code (some cf) (some pf)).status =
      if ∀ j, j < n → na_str (cf.getD j none) = na_str (pf.getD j none)
      then String.toList "UNMODIFIED" else String.toList "CHANGED" := by
  obtain ⟨cv, hcv⟩ := Option.isSome_iff_exists.1 hc
  obtain ⟨pv, hpv⟩ := Option.isSome_iff_exists.1 hp
  unfold diff_row
  simp only [getF, hcv, hpv, Option.isNone_some, Option.isSome_some, Bool.false_and,
    Bool.and_false]
  rw [if_neg (by simp), if_neg (by simp)]
  by_cases hall : ∀ j, j < n → na_str (cf.getD j none) = na_str (pf.getD j none)
  · rw [if_pos hall, if_neg]
    rw [List.any_eq_true]
    rintro ⟨j, hjr, hcond⟩
    rw [List.mem_range] at hjr
    simp only [getF, Bool.not_false, Bool.true_and, decide_eq_true_eq] at hcond
    exact hcond (hall j hjr)
  · rw [if_neg hall, if_pos]
    push_neg at hall
    obtain ⟨j, hj, hne⟩ := hall
    rw [List.any_eq_true]
    refine ⟨j, List.mem_range.2 hj, ?_⟩
    simp only [getF, Bool.not_false, Bool.true_and, decide_eq_true_eq]
    exact hne

theorem diff_row_out_fields (n : ℕ) (code : Str) (cf pf : Option (List (Option Str))) :
    (diff_row n code cf pf).out_fields =
      (List.range n).map (fun j =>
        if ((getF pf 0).isNone && (getF cf 0).isSome) then na_str (getF cf j)
        else if ((getF pf 0).isSome && (getF cf 0).isNone) then
          String.toList "(DELETED - was: " ++ na_str (getF pf j) ++ [')']
        else if na_str (getF cf j) ≠ na_str (getF pf j) then
          na_str (getF cf j) ++ String.toList " (was: " ++ na_str (getF pf j) ++ [')']
        else na_str (getF cf j)) := rfl

theorem diff_row_fields_both (n : ℕ) (code : Str) (cf pf : List (Option Str))
    (hc : (cf.getD 0 none).isSome) (hp : (pf.getD 0 none).isSome) (j : ℕ) (hj : j < n) :
    (diff_row n code (some cf) (some pf)).out_fields.getD j [] =
      if na_str (cf.getD j none) = na_str (pf.getD j none) then na_str (cf.getD j none)
      else na_str (cf.getD j none) ++ String.toList " (was: " ++
        na_str (pf.getD j none) ++ [')'] := by
  obtain ⟨cv, hcv⟩ := Option.isSome_iff_exists.1 hc
  obtain ⟨pv, hpv⟩ := Option.isSome_iff_exists.1 hp
  rw [diff_row_out_fields, getD_map_range _ n j hj]
  simp only [getF, hcv, hpv, Option.isNone_some, Option.isSome_some, Bool.false_and,
    Bool.and_false]
  rw [if_neg (by simp), if_neg (by simp)]
  by_cases heq : na_str (cf.getD j none) = na_str (pf.getD j none)
  · rw [if_pos heq, if_neg (by simpa using heq)]
  · rw [if_neg heq, if_pos (by simpa using heq)]

/-- C7, amended: joining on VFX code with unique codes and non-null EPISODE
cells in both tables, a code only in current is NEW, only in previous is
DELETED, and a code in both is UNMODIFIED exactly when every display field
compares equal as text (missing normalized to empty), else CHANGED with
each differing field annotated with both values; consequently self-diff is
all UNMODIFIED, empty previous gives all NEW, and empty current gives all
DELETED. (The EPISODE null checks are needed: the source detects NEW and
DELETED through the null-ness of the EPISODE column after the outer merge,
see the counterexample.) -/
theorem C7_diff_classification (n : ℕ) (curr prev : List ShotRow)
    (hcn : (curr.map ShotRow.code).Nodup) (hpn : (prev.map ShotRow.code).Nodup)
    (hce : ∀ r ∈ curr, (r.fields.getD 0 none).isSome)
    (hpe : ∀ r ∈ prev, (r.fields.getD 0 none).isSome) :
    (∀ c ∈ curr, (∀ p ∈ prev, p.code ≠ c.code) →
      ∃ dr ∈ diff_shots n curr prev, dr.code = c.code ∧
        dr.status = String.toList "NEW") ∧
    (∀ p ∈ prev, (∀ c ∈ curr, c.code ≠ p.code) →
      ∃ dr ∈ diff_shots n curr prev, dr.code = p.code ∧
        dr.status = String.toList "DELETED") ∧
    (∀ c ∈ curr, ∀ p ∈ prev, p.code = c.code →
      ∃ dr ∈ diff_shots n curr prev, dr.code = c.code ∧
        dr.status = (if ∀ j, j < n →
            na_str (c.fields.getD j none) = na_str (p.fields.getD j none)
          then String.toList "UNMODIFIED" else String.toList "CHANGED") ∧
        (∀ j, j < n → dr.out_fields.getD j [] =
          (if na_str (c.fields.getD j none) = na_str (p.fields.getD j none)
           then na_str (c.fields.getD j none)
           else na_str (c.fields.getD j none) ++ String.toList " (was: " ++
             na_str (p.fields.getD j none) ++ [')']))) ∧
    (∀ dr ∈ diff_shots n curr curr, dr.status = String.toList "UNMODIFIED") ∧
    (∀ dr ∈ diff_shots n curr [], dr.status = String.toList "NEW") ∧
    (∀ dr ∈ diff_shots n [] prev, dr.status = String.toList "DELETED") := by
  refine ⟨?_, ?_, ?_, ?_, ?_, ?_⟩
  · intro c hc honly
    refine ⟨diff_row n c.code (some c.fields) ((find_row prev c.code).map ShotRow.fields),
      List.mem_append_left _ (List.mem_map_of_mem _ hc), rfl, ?_⟩
    rw [find_row_eq_none prev c.code honly]
    exact diff_row_status_new n c.code c.fields (hce c hc)
  · intro p hp honly
    have hfind : (find_row curr p.code).isNone = true := by
      rw [find_row_eq_none curr p.code honly]
      rfl
    refine ⟨diff_row n p.code none (some p.fields),
      List.mem_append_right _ (List.mem_map_of_mem _ (List.mem_filter.2 ⟨hp, hfind⟩)),
      rfl, ?_⟩
    exact diff_row_status_deleted n p.code p.fields (hpe p hp)
  · intro c hc p hp hcode
    have hfind : find_row prev c.code = some p := by
      rw [← hcode]
      exact find_row_eq_some prev p hp hpn
    refine ⟨diff_row n c.code (some c.fields) ((find_row prev c.code).map ShotRow.fields),
      List.mem_append_left _ (List.mem_map_of_mem _ hc), rfl, ?_, ?_⟩
    · rw [hfind]
      exact diff_row_status_both n c.code c.fields p.fields (hce c hc) (hpe p hp)
    · intro j hj
      rw [hfind]
      exact diff_row_fields_both n c.code c.fields p.fields (hce c hc) (hpe p hp) j hj
  · intro dr hdr
    rcases List.mem_append.1 hdr with hml | hmr
    · obtain ⟨c, hc, rfl⟩ := List.mem_map.1 hml
      rw [find_row_eq_some curr c hc hcn]
      simp only [Option.map_some']
      rw [diff_row_status_both n c.code c.fields c.fields (hce c hc) (hce c hc)]
      rw [if_pos (fun j hj => rfl)]
    · obtain ⟨p, hpf, rfl⟩ := List.mem_map.1 hmr
      have := (List.mem_filter.1 hpf).2
      rw [find_row_eq_some curr p (List.mem_filter.1 hpf).1 hcn] at this
      simp at this
  · intro dr hdr
    rcases List.mem_append.1 hdr with hml | hmr
    · obtain ⟨c, hc, rfl⟩ := List.mem_map.1 hml
      rw [show find_row ([] : List ShotRow) c.code = none from rfl]
      simp only [Option.map_none']
      exact diff_row_status_new n c.code c.fields (hce c hc)
    · simp at hmr
  · intro dr hdr
    rcases List.mem_append.1 hdr with hml | hmr
    · simp at hml
    · obtain ⟨p, hpf, rfl⟩ := List.mem_map.1 hmr
      exact diff_row_status_deleted n p.code p.fields (hpe p (List.mem_filter.1 hpf).1)

/-- C7, counterexample: a code present in both tables whose previous-table
EPISODE cell is missing (a NaN as produced by reading an empty CSV cell)
while the current EPISODE is the empty string is classified NEW, although
the claim requires UNMODIFIED (both fields normalize to the empty string). -/
theorem C7_diff_classification_counterexample :
    (diff_shots 1 [⟨String.toList "A", [some []]⟩]
        [⟨String.toList "A", [none]⟩]).map DiffRow.status =
      [String.toList "NEW"] ∧
    na_str (some []) = na_str none ∧
    String.toList "NEW" ≠ String.toList "UNMODIFIED" := by
  refine ⟨by decide, rfl, by decide⟩

/-- C7, witness: a one-row table against itself is UNMODIFIED. -/
theorem C7_diff_classification_witness :
    ((diff_shots 1 [⟨String.toList "A", [some (String.toList "7")]⟩]
        [⟨String.toList "A", [some (String.toList "7")]⟩]).getD 0 default).status =
      String.toList "UNMODIFIED" :=
  (C7_diff_classification 1 [⟨String.toList "A", [some (String.toList "7")]⟩]
    [⟨String.toList "A", [some (String.toList "7")]⟩]
    (by decide) (by decide) (by decide) (by decide)).2.2.2.1 _ (by decide)
